import Mathlib

/-!
# Verification of the job-radar acquisition pipeline

A shallow embedding, in Lean 4, of the core acquisition pipeline of the
job-radar repository: the scoring engine (`services/scoring.js`), the
normalizer/deduplicator (`parsers/utils.js`), the source registry and
dispatcher (`parsers/index.js`), the per-source URL normalizers
(`parsers/linkedin.js`, `parsers/indeed.js`, `parsers/otta.js`), the
API adapters (Greenhouse, Lever, Ashby, Rippling), the HTML adapters at
the post-selection boundary, the ingestion entrypoint (`index.js`,
`POST /api/radar/ingest`) and the discovery orchestrator
(`services/discovery.js`).

JavaScript strings are modelled as Lean `String`/`List Char` (UTF-16
details are irrelevant to the inputs considered here), machine numbers as
`Int`/`Nat`, fallible operations as `Option`/`Except`, and the database
and network as explicit state/oracle parameters.
-/

namespace JobRadar

/-- A normalized posting (`NormalizedPosting` in the spec): the uniform
record shape every adapter produces.  All fields are strings; `salary` is
empty when absent. -/
structure Job where
  title : String := ""
  companyName : String := ""
  location : String := ""
  jobUrl : String := ""
  description : String := ""
  salaryText : String := ""
  source : String := ""
deriving DecidableEq, Repr

/-- A radar zone (rule configuration).  In the database `greenFlags` and
`redFlags` are JSON-serialized arrays of keywords which
`calculateScore` parses with `JSON.parse(zone.greenFlags || '[]')`; here
they are modelled in parsed form as keyword lists. -/
structure RadarZone where
  name : String := ""
  searchTitle : String := ""
  searchLocation : String := ""
  greenFlags : List String := []
  redFlags : List String := []
  enabledSources : List String := []
  active : Bool := true
deriving DecidableEq, Repr

/-- One audit entry of the scoring engine: `{ flag, field, points }`. -/
structure FlagMatch where
  flag : String
  field : String
  points : Int
deriving DecidableEq, Repr

/-- The scoring result: `{ score, matches: { greenFlags, redFlags } }`. -/
structure ScoreResult where
  score : Int
  greenFlags : List FlagMatch
  redFlags : List FlagMatch
deriving DecidableEq, Repr

/-- JavaScript `s.toLowerCase()`.  `Char.toLower` maps the ASCII
uppercase range; the Unicode case table beyond ASCII is not modelled. -/
def jsToLower (s : String) : String := String.mk (s.toList.map Char.toLower)

/-- Scan for an occurrence of `needle` at any position of `hay`. -/
def occursIn (needle : List Char) : List Char → Bool
  | [] => needle.isEmpty
  | c :: t => needle.isPrefixOf (c :: t) || occursIn needle t

/-- JavaScript `haystack.includes(needle)`: substring containment (the
empty needle is contained in everything). -/
def jsIncludes (hay needle : String) : Bool :=
  occursIn needle.toList hay.toList

/-- Scoring weights (`WEIGHTS` in `services/scoring.js`). -/
def GREEN_FLAG_TITLE : Int := 25
def GREEN_FLAG_COMPANY : Int := 15
def GREEN_FLAG_LOCATION : Int := 10
def GREEN_FLAG_DESCRIPTION : Int := 5
def RED_FLAG_TITLE : Int := -30
def RED_FLAG_COMPANY : Int := -20
def RED_FLAG_LOCATION : Int := -50
def RED_FLAG_DESCRIPTION : Int := -10

/-- The four lower-cased searchable fields of a job, prepared once by
`calculateScore` (`(job.title || '').toLowerCase()` and so on). -/
structure LoweredJob where
  titleLower : String
  companyLower : String
  locationLower : String
  descriptionLower : String

def lowerJob (job : Job) : LoweredJob :=
  { titleLower := jsToLower job.title
    companyLower := jsToLower job.companyName
    locationLower := jsToLower job.location
    descriptionLower := jsToLower job.description }

/-- The green-flag check for one flag: four independent containment
tests, each adding its weight to the running total and appending an audit
entry (the body of `for (const flag of greenFlags)`). -/
def checkGreenFlag (lj : LoweredJob) (flag : String)
    (st : Int × List FlagMatch) : Int × List FlagMatch :=
  let flagLower := jsToLower flag
  let st :=
    if jsIncludes lj.titleLower flagLower then
      (st.1 + GREEN_FLAG_TITLE,
       st.2 ++ [⟨flag, "title", GREEN_FLAG_TITLE⟩])
    else st
  let st :=
    if jsIncludes lj.companyLower flagLower then
      (st.1 + GREEN_FLAG_COMPANY,
       st.2 ++ [⟨flag, "company", GREEN_FLAG_COMPANY⟩])
    else st
  let st :=
    if jsIncludes lj.locationLower flagLower then
      (st.1 + GREEN_FLAG_LOCATION,
       st.2 ++ [⟨flag, "location", GREEN_FLAG_LOCATION⟩])
    else st
  let st :=
    if jsIncludes lj.descriptionLower flagLower then
      (st.1 + GREEN_FLAG_DESCRIPTION,
       st.2 ++ [⟨flag, "description", GREEN_FLAG_DESCRIPTION⟩])
    else st
  st

/-- The red-flag check for one flag (the body of
`for (const flag of redFlags)`). -/
def checkRedFlag (lj : LoweredJob) (flag : String)
    (st : Int × List FlagMatch) : Int × List FlagMatch :=
  let flagLower := jsToLower flag
  let st :=
    if jsIncludes lj.titleLower flagLower then
      (st.1 + RED_FLAG_TITLE, st.2 ++ [⟨flag, "title", RED_FLAG_TITLE⟩])
    else st
  let st :=
    if jsIncludes lj.companyLower flagLower then
      (st.1 + RED_FLAG_COMPANY,
       st.2 ++ [⟨flag, "company", RED_FLAG_COMPANY⟩])
    else st
  let st :=
    if jsIncludes lj.locationLower flagLower then
      (st.1 + RED_FLAG_LOCATION,
       st.2 ++ [⟨flag, "location", RED_FLAG_LOCATION⟩])
    else st
  let st :=
    if jsIncludes lj.descriptionLower flagLower then
      (st.1 + RED_FLAG_DESCRIPTION,
       st.2 ++ [⟨flag, "description", RED_FLAG_DESCRIPTION⟩])
    else st
  st

/-- The per-zone step of `calculateScore`'s `for (const zone of zones)`
loop: run all green-flag checks, then all red-flag checks, threading the
accumulated total and the two audit lists. -/
def zoneStep (lj : LoweredJob) (st : Int × List FlagMatch × List FlagMatch)
    (zone : RadarZone) : Int × List FlagMatch × List FlagMatch :=
  let g := zone.greenFlags.foldl (fun s f => checkGreenFlag lj f s)
    (st.1, st.2.1)
  let r := zone.redFlags.foldl (fun s f => checkRedFlag lj f s)
    (g.1, st.2.2)
  (r.1, g.2, r.2)

/-- `calculateScore(job)` from `services/scoring.js`, with the set of
active zones (the `prisma.radarZone.findMany({where:{active:true}})`
snapshot) passed explicitly: the non-active zones are filtered out, an
empty active set short-circuits to score 0 with empty match lists, and
otherwise every active zone's green and red flags are tested against the
four lower-cased fields, summing into one total. -/
def calculateScore (job : Job) (allZones : List RadarZone) : ScoreResult :=
  let zones := allZones.filter (·.active)
  if zones.isEmpty then ⟨0, [], []⟩
  else
    let lj := lowerJob job
    let st := zones.foldl (zoneStep lj) (0, [], [])
    ⟨st.1, st.2.1, st.2.2⟩

/-- `deduplicateJobs` from `parsers/utils.js` (duplicated verbatim inside
`linkedin.js`, `indeed.js`, `otta.js`): a stateful filter that drops a
posting when its `jobUrl` is empty (falsy) or already seen, and otherwise
records the url as seen and keeps the posting. -/
def dedupGo (seen : List String) : List Job → List Job
  | [] => []
  | j :: rest =>
    if j.jobUrl = "" ∨ j.jobUrl ∈ seen then dedupGo seen rest
    else j :: dedupGo (j.jobUrl :: seen) rest

def deduplicateJobs (jobs : List Job) : List Job := dedupGo [] jobs

/-- Sum of the `points` fields of a list of audit entries. -/
def sumPoints (ms : List FlagMatch) : Int := (ms.map (·.points)).sum

/-- The zone loop of `calculateScore` without the empty-set
short-circuit. -/
def calcFold (lj : LoweredJob) (zones : List RadarZone) :
    Int × List FlagMatch × List FlagMatch :=
  zones.foldl (zoneStep lj) (0, [], [])

/-- The green-flag audit invariant: the running total equals the summed
points of the audit entries, and every entry carries a positive weight. -/
def GreenInv (st : Int × List FlagMatch) : Prop :=
  st.1 = sumPoints st.2 ∧ ∀ m ∈ st.2, 0 < m.points

/-- The red-flag audit invariant: the running total equals the summed
points of the audit entries, and every entry carries a negative weight. -/
def RedInv (st : Int × List FlagMatch) : Prop :=
  st.1 = sumPoints st.2 ∧ ∀ m ∈ st.2, m.points < 0

/-- The whole-state audit invariant for the zone fold. -/
def AuditInv (st : Int × List FlagMatch × List FlagMatch) : Prop :=
  st.1 = sumPoints st.2.1 + sumPoints st.2.2
  ∧ (∀ m ∈ st.2.1, 0 < m.points) ∧ ∀ m ∈ st.2.2, m.points < 0

/-- The posting and the two zones of the spec's worked example. -/
def examplePythonJob : Job :=
  { title := "Python Developer", companyName := "", location := "On-site NY",
    description := "" }

def exampleZoneZ1 : RadarZone :=
  { name := "Z1", greenFlags := ["python"], redFlags := [], active := true }

def exampleZoneZ2 : RadarZone :=
  { name := "Z2", greenFlags := [], redFlags := ["on-site"], active := true }

/-! ## Text utilities (`cleanText` and friends) -/

/-- The JavaScript regex whitespace class `\s` (also the set `trim`
removes). -/
def isJsWhitespace (c : Char) : Bool :=
  c = ' ' || c = '\t' || c = '\n' || c = '\r' || c = '\u000B' || c = '\u000C'
    || c = ' ' || c = ' ' || (' ' ≤ c && c ≤ ' ')
    || c = ' ' || c = ' ' || c = ' ' || c = ' '
    || c = '　' || c = '﻿'

/-- `s.replace(/\s+/g, ' ')`: every maximal whitespace run becomes a
single space. -/
def collapseWs : List Char → List Char
  | [] => []
  | [c] => if isJsWhitespace c then [' '] else [c]
  | c1 :: c2 :: rest =>
    if isJsWhitespace c1 then
      (if isJsWhitespace c2 then collapseWs (c2 :: rest)
       else ' ' :: collapseWs (c2 :: rest))
    else c1 :: collapseWs (c2 :: rest)

/-- `s.replace(/[\n\r\t]/g, ' ')` (a no-op after `collapseWs`, kept for
fidelity to the source chain). -/
def replaceNRT : List Char → List Char :=
  List.map (fun c => if c = '\n' || c = '\r' || c = '\t' then ' ' else c)

/-- `s.trim()` on char lists. -/
def jsTrimL (l : List Char) : List Char :=
  (((l.dropWhile isJsWhitespace).reverse).dropWhile isJsWhitespace).reverse

/-- `s.trim()`. -/
def jsTrim (s : String) : String := String.mk (jsTrimL s.toList)

/-- `cleanText` from `parsers/utils.js` (duplicated verbatim in
`linkedin.js`, `indeed.js`, `otta.js`): falsy input gives the empty
string; otherwise collapse whitespace runs, map newlines/tabs to spaces,
and trim. -/
def cleanText (s : String) : String :=
  if s = "" then ""
  else String.mk (jsTrimL (replaceNRT (collapseWs s.toList)))

/-- `s.substring(0, n)`. -/
def jsSubstring (s : String) (n : Nat) : String := String.mk (s.toList.take n)

/-- The length JavaScript sees (code points; surrogate-pair details are
not modelled). -/
def jsLen (s : String) : Nat := s.toList.length

/-- `s.startsWith(pre)`. -/
def jsStartsWith (s pre : String) : Bool := pre.toList.isPrefixOf s.toList

/-- `parts.join(sep)`. -/
def joinSep (sep : String) : List String → String
  | [] => ""
  | [x] => x
  | x :: rest => x ++ sep ++ joinSep sep rest

/-- Remove the first occurrence of the (non-empty) pattern. -/
def removeFirstGo (pat : List Char) : List Char → List Char
  | [] => []
  | c :: rest =>
    if pat.isPrefixOf (c :: rest) then (c :: rest).drop pat.length
    else c :: removeFirstGo pat rest

/-- `s.replace(pat, '')` for a plain string pattern: remove the first
occurrence; an empty pattern matches at position 0 and leaves the string
unchanged. -/
def jsRemoveFirst (s pat : String) : String :=
  if pat = "" then s else String.mk (removeFirstGo pat.toList s.toList)

/-! ## URL machinery

Models of the WHATWG `URL` constructor surface the normalizers use:
validity (does `new URL(u)` throw), `origin + pathname`, `search`, and
`searchParams.get`.  The model keeps: stripping of tabs and newlines
from the input, scheme recognition and lowercasing, the special
schemes' backslash-to-slash conversion and leading-slash skipping,
host lowercasing, opaque-path URLs (`mailto:x`) and `file:` URLs with
an empty host, the host/path/query/fragment split, the
`origin + pathname` assembly (`null` origin for non-special and
`file:` URLs, default `/` pathname for special ones), ampersand
splitting and `application/x-www-form-urlencoded` decoding of
parameter values (`+` to space, `%XX` percent-escapes).  Userinfo and
port splitting, default-port elision, IDNA/forbidden-code-point host
validation, dot-segment resolution and pathname percent-encoding are
not modeled; the theorems below either restrict their inputs away from
these cases or (for the Indeed normalizer) read only the query string,
which those normalizations do not touch. -/

def isSchemeChar (c : Char) : Bool :=
  c.isAlpha || c.isDigit || c = '+' || c = '-' || c = '.'

def isHostChar (c : Char) : Bool := c ≠ '/' && c ≠ '?' && c ≠ '#'

def noQueryHash (c : Char) : Bool := c ≠ '?' && c ≠ '#'

/-- The URL parser removes every ASCII tab, line feed and carriage
return from its input before parsing. -/
def stripTabsNewlines (l : List Char) : List Char :=
  l.filter (fun c => c ≠ '\t' && c ≠ '\n' && c ≠ '\r')

def lowerChars (l : List Char) : List Char := l.map Char.toLower

/-- The WHATWG special schemes. -/
def specialSchemes : List (List Char) :=
  ["http".toList, "https".toList, "ws".toList, "wss".toList,
   "ftp".toList, "file".toList]

/-- In a special-scheme URL a backslash behaves as a slash. -/
def backslashFix (l : List Char) : List Char :=
  l.map (fun c => if c = '\\' then '/' else c)

/-- What `new URL(u)` yields, as far as the normalizers inspect it: a
special-scheme URL with a (lowercased) host, a non-special URL that
still has a `//` authority, or a non-special URL with an opaque
path. -/
inductive UrlParts where
  | special (scheme host afterHost : List Char)
  | nonspecialAuth (scheme host afterHost : List Char)
  | opaquePath (scheme afterColon : List Char)
deriving Repr, DecidableEq

/-- Parse a URL as `new URL(u)` does, to the depth the normalizers
observe; `none` when the constructor would throw (no alphabetic scheme
followed by `:`, or a special non-`file` scheme with an empty host). -/
def urlParse? (l0 : List Char) : Option UrlParts :=
  let l := stripTabsNewlines l0
  let scheme := l.takeWhile isSchemeChar
  let rest := l.dropWhile isSchemeChar
  match scheme, rest with
  | [], _ => none
  | c :: cs, ':' :: afterColon =>
    if c.isAlpha then
      let ls := lowerChars (c :: cs)
      if specialSchemes.contains ls then
        if ls = "file".toList then
          let fixed := backslashFix afterColon
          let rest2 :=
            if "//".toList.isPrefixOf fixed then fixed.drop 2 else fixed
          some (.special ls (lowerChars (rest2.takeWhile isHostChar))
            (rest2.dropWhile isHostChar))
        else
          let fixed := (backslashFix afterColon).dropWhile (fun c => c = '/')
          let host := fixed.takeWhile isHostChar
          if host.isEmpty then none
          else some (.special ls (lowerChars host)
            (fixed.dropWhile isHostChar))
      else
        if "//".toList.isPrefixOf afterColon then
          let rest2 := afterColon.drop 2
          some (.nonspecialAuth ls (rest2.takeWhile isHostChar)
            (rest2.dropWhile isHostChar))
        else some (.opaquePath ls afterColon)
    else none
  | _ :: _, _ => none

/-- `new URL(u)` and then `` `${parsed.origin}${parsed.pathname}` ``:
for a special non-`file` URL the lowercased scheme and host followed by
the path (default `/`); `file:` and non-special URLs have the opaque
origin `null`. -/
def urlOriginPathname? (l : List Char) : Option (List Char) :=
  match urlParse? l with
  | none => none
  | some (.special scheme host afterHost) =>
    let path := afterHost.takeWhile noQueryHash
    let path2 := if path.isEmpty then ['/'] else path
    if scheme = "file".toList then some ("null".toList ++ path2)
    else some (scheme ++ ':' :: '/' :: '/' :: (host ++ path2))
  | some (.nonspecialAuth _ _ afterHost) =>
    some ("null".toList ++ afterHost.takeWhile noQueryHash)
  | some (.opaquePath _ afterColon) =>
    some ("null".toList ++ afterColon.takeWhile noQueryHash)

/-- The query part of a URL: after the first `?` that precedes the first
`#`. -/
def urlSearch (l : List Char) : List Char :=
  ((l.takeWhile (fun c => c ≠ '#')).dropWhile (fun c => c ≠ '?')).tail

/-- `query.split('&')`. -/
def splitAmp : List Char → List (List Char)
  | [] => [[]]
  | c :: rest =>
    if c = '&' then [] :: splitAmp rest
    else
      match splitAmp rest with
      | [] => [[c]]
      | p :: ps => (c :: p) :: ps

def isHexDigitChar (c : Char) : Bool :=
  c.isDigit || ('a' ≤ c && c ≤ 'f') || ('A' ≤ c && c ≤ 'F')

def hexVal (c : Char) : Nat :=
  if c.isDigit then c.toNat - 48
  else if 'a' ≤ c && c ≤ 'f' then c.toNat - 87
  else c.toNat - 55

/-- `application/x-www-form-urlencoded` decoding as `URLSearchParams`
performs it when reading a value: `+` becomes a space and valid `%XX`
escapes become the escaped byte; invalid escapes stay literal.
(Multi-byte UTF-8 escape sequences decode to one char per byte here; the
normalizers are only exercised on single-byte escapes.) -/
def formDecode : List Char → List Char
  | [] => []
  | '+' :: rest => ' ' :: formDecode rest
  | '%' :: h1 :: h2 :: rest2 =>
    if isHexDigitChar h1 && isHexDigitChar h2 then
      Char.ofNat (16 * hexVal h1 + hexVal h2) :: formDecode rest2
    else '%' :: formDecode (h1 :: h2 :: rest2)
  | '%' :: rest => '%' :: formDecode rest
  | c :: rest => c :: formDecode rest

/-- `parsed.searchParams.get(name)`: the decoded value of the first
parameter whose decoded name matches; `none` models `null`. -/
def searchParamGet (query nm : List Char) : Option (List Char) :=
  match ((splitAmp query).filter (fun p => !p.isEmpty)).find?
      (fun p => formDecode (p.takeWhile (fun c => c ≠ '=')) == nm) with
  | none => none
  | some p => some (formDecode ((p.dropWhile (fun c => c ≠ '=')).tail))

/-! ## Per-source URL normalizers -/

/-- `url.startsWith('/')`. -/
def startsWithSlash : List Char → Bool
  | c :: _ => c = '/'
  | [] => false


/-- Strip a literal preamble from the front of a list, or fail. -/
def stripPre? : List Char → List Char → Option (List Char)
  | [], l => some l
  | _ :: _, [] => none
  | p :: ps, c :: cs => if c = p then stripPre? ps cs else none

/-- One anchored attempt of the LinkedIn job-view regex
`https:\/\/(?:www\.)?linkedin\.com\/jobs\/view\/\d+` at the head of the
list, returning the matched text.  No backtracking over the optional
`www.` group is needed: when `www.` is present the branch without it
cannot match (the next literal starts with `l`). -/
def matchLinkedInAt (l : List Char) : Option (List Char) :=
  match stripPre? "https://".toList l with
  | none => none
  | some r1 =>
    let w : List Char :=
      match stripPre? "www.".toList r1 with
      | some _ => "www.".toList
      | none => []
    let r2 : List Char :=
      match stripPre? "www.".toList r1 with
      | some r => r
      | none => r1
    match stripPre? "linkedin.com/jobs/view/".toList r2 with
    | none => none
    | some r3 =>
      let ds := r3.takeWhile Char.isDigit
      if ds.isEmpty then none
      else
        some ("https://".toList ++ w ++ "linkedin.com/jobs/view/".toList ++ ds)

/-- `url.match(regex)`: leftmost match of the LinkedIn job-view
pattern. -/
def findLinkedInMatch : List Char → Option (List Char)
  | [] => none
  | c :: rest =>
    match matchLinkedInAt (c :: rest) with
    | some m => some m
    | none => findLinkedInMatch rest

/-- `normalizeLinkedInUrl` from `parsers/linkedin.js` on char lists:
empty (falsy) input gives the empty string; a relative URL is promoted to
`https://www.linkedin.com`; a match of the job-view pattern wins;
otherwise `new URL` strips query and fragment, and an unparseable URL is
returned as-is. -/
def normalizeLinkedInUrlL (l : List Char) : List Char :=
  if l.isEmpty then []
  else
    let l2 : List Char :=
      if startsWithSlash l then "https://www.linkedin.com".toList ++ l else l
    match findLinkedInMatch l2 with
    | some m => m
    | none =>
      match urlOriginPathname? l2 with
      | some op => op
      | none => l2

def normalizeLinkedInUrl (url : String) : String :=
  String.mk (normalizeLinkedInUrlL url.toList)

/-- The canonical Indeed job URL built from a job id. -/
def indeedCanonical (jk : List Char) : List Char :=
  "https://uk.indeed.com/viewjob?jk=".toList ++ jk

/-- `normalizeIndeedUrl` from `parsers/indeed.js` on char lists: falsy
url falls back to the job id; a relative URL is promoted to
`https://uk.indeed.com`; a parseable URL is canonicalized around its
decoded `jk` query parameter (or the passed job id); otherwise the URL is
returned as-is. -/
def normalizeIndeedUrlL (url jobId : List Char) : List Char :=
  if url.isEmpty then
    (if jobId.isEmpty then [] else indeedCanonical jobId)
  else
    let u2 : List Char :=
      if startsWithSlash url then "https://uk.indeed.com".toList ++ url
      else url
    match urlParse? u2 with
    | none => u2
    | some _ =>
      let jk : List Char :=
        match searchParamGet (urlSearch (stripTabsNewlines u2))
            "jk".toList with
        | some v => if v.isEmpty then jobId else v
        | none => jobId
      if jk.isEmpty then u2 else indeedCanonical jk

def normalizeIndeedUrl (url jobId : String) : String :=
  String.mk (normalizeIndeedUrlL url.toList jobId.toList)

/-- `normalizeOttaUrl` from `parsers/otta.js`: falsy input gives the
empty string, a relative URL is promoted to `https://otta.com`, anything
else is returned unchanged. -/
def normalizeOttaUrlL (l : List Char) : List Char :=
  if l.isEmpty then []
  else if startsWithSlash l then "https://otta.com".toList ++ l
  else l

def normalizeOttaUrl (url : String) : String :=
  String.mk (normalizeOttaUrlL url.toList)

/-- The shape of every string the LinkedIn job-view regex can return:
the literal pattern with an optional `www.` and a non-empty digit run. -/
def LinkedInShape (m : List Char) : Prop :=
  ∃ w ds, (w = [] ∨ w = "www.".toList) ∧ ds ≠ []
    ∧ (∀ c ∈ ds, c.isDigit = true)
    ∧ m = "https://".toList ++ w ++ "linkedin.com/jobs/view/".toList ++ ds

/-- No percent-escape or plus sign anywhere in the string (the
characters whose `URLSearchParams` decoding is not stable under
re-serialization). -/
def noPctPlus (s : String) : Bool :=
  s.toList.all (fun c => c ≠ '%' && c ≠ '+')

/-- A job id safe to splice into `viewjob?jk=`: no percent-escape, plus,
ampersand, hash, tab or newline (tabs and newlines would be stripped by
the URL parser on the next pass). -/
def cleanJobId (s : String) : Bool :=
  s.toList.all (fun c => c ≠ '%' && c ≠ '+' && c ≠ '&' && c ≠ '#'
    && c ≠ '\t' && c ≠ '\n' && c ≠ '\r')

/-! ## Source registry / dispatcher (`parsers/index.js`) -/

/-- `detectSource`: scan the lower-cased document for the fixed, ordered
source-identifying substrings and return the first source that matches;
`"auto"` when none does. -/
def detectSource (html : String) : String :=
  let lowerHtml := jsToLower html
  if jsIncludes lowerHtml "linkedin.com"
      || jsIncludes lowerHtml "job-card-container" then "LinkedIn"
  else if jsIncludes lowerHtml "indeed.com"
      || jsIncludes lowerHtml "jobsearch-resultsList" then "Indeed"
  else if jsIncludes lowerHtml "otta.com"
      || jsIncludes lowerHtml "otta" then "Otta"
  else if jsIncludes lowerHtml "boards.greenhouse.io"
      || jsIncludes lowerHtml "greenhouse" then "Greenhouse"
  else if jsIncludes lowerHtml "jobs.lever.co"
      || jsIncludes lowerHtml "lever.co" then "Lever"
  else if jsIncludes lowerHtml "jobs.ashbyhq.com"
      || jsIncludes lowerHtml "ashbyhq" then "Ashby"
  else if jsIncludes lowerHtml "ats.rippling.com"
      || jsIncludes lowerHtml "rippling.com" then "Rippling"
  else "auto"

/-- The fixed detection precedence list, as the spec describes it: per
source, the substrings whose occurrence in the lower-cased document
identifies it, in the order they are checked. -/
def detectSourcePrecedence : List (String × List String) :=
  [("LinkedIn", ["linkedin.com", "job-card-container"]),
   ("Indeed", ["indeed.com", "jobsearch-resultsList"]),
   ("Otta", ["otta.com", "otta"]),
   ("Greenhouse", ["boards.greenhouse.io", "greenhouse"]),
   ("Lever", ["jobs.lever.co", "lever.co"]),
   ("Ashby", ["jobs.ashbyhq.com", "ashbyhq"]),
   ("Rippling", ["ats.rippling.com", "rippling.com"])]

/-- `detectSource` as the spec words it: the first entry of the ordered
precedence list one of whose substrings occurs in the lower-cased
document, else `"auto"`. -/
def detectSourceSpec (html : String) : String :=
  let lowerHtml := jsToLower html
  match detectSourcePrecedence.find?
      (fun e => e.2.any (fun sub => jsIncludes lowerHtml sub)) with
  | some e => e.1
  | none => "auto"

/-- The seven per-source HTML parse functions, as the dispatcher sees
them.  Their bodies are modelled separately (they run over extracted
document views); the dispatcher only needs them as functions from HTML
to postings. -/
structure AdapterSet where
  parseLinkedIn : String → List Job
  parseIndeed : String → List Job
  parseOtta : String → List Job
  parseGreenhouse : String → List Job
  parseLever : String → List Job
  parseAshby : String → List Job
  parseRippling : String → List Job

/-- The `default:` branch of `parseJobHtml`: try all parsers in the fixed
order and return the first non-empty result, else the empty list. -/
def tryAllParsers (A : AdapterSet) (html : String) : List Job :=
  let l1 := A.parseLinkedIn html
  if l1.length > 0 then l1 else
  let l2 := A.parseIndeed html
  if l2.length > 0 then l2 else
  let l3 := A.parseOtta html
  if l3.length > 0 then l3 else
  let l4 := A.parseGreenhouse html
  if l4.length > 0 then l4 else
  let l5 := A.parseLever html
  if l5.length > 0 then l5 else
  let l6 := A.parseAshby html
  if l6.length > 0 then l6 else
  let l7 := A.parseRippling html
  if l7.length > 0 then l7 else []

/-- `parseJobHtml(html, source)` for string input: empty (falsy) HTML
gives `[]`; `"auto"` runs `detectSource`; the switch on the lower-cased
source name dispatches to one adapter, and an unrecognized name falls
through to the try-all branch. -/
def parseJobHtml (A : AdapterSet) (html : String) (source : String) :
    List Job :=
  if html = "" then []
  else
    let src := if source = "auto" then detectSource html else source
    match jsToLower src with
    | "linkedin" => A.parseLinkedIn html
    | "indeed" => A.parseIndeed html
    | "otta" => A.parseOtta html
    | "greenhouse" => A.parseGreenhouse html
    | "lever" => A.parseLever html
    | "ashby" => A.parseAshby html
    | "rippling" => A.parseRippling html
    | _ => tryAllParsers A html

/-! ## JavaScript values at the API boundary -/

/-- The JavaScript values relevant to the entrypoints: strings and the
non-string values the guards distinguish. -/
inductive JSVal where
  | str (s : String)
  | jsNull
  | jsUndefined
  | num (n : Int)
  | boolean (b : Bool)
deriving DecidableEq, Repr

/-- JavaScript truthiness. -/
def jsTruthy : JSVal → Bool
  | .str s => s != ""
  | .jsNull => false
  | .jsUndefined => false
  | .num n => n != 0
  | .boolean b => b

/-- `typeof v === 'string'`. -/
def isStringVal : JSVal → Bool
  | .str _ => true
  | _ => false

/-- `parseJobHtml` including its runtime-type guard
(`if (!html || typeof html !== 'string') return []`). -/
def parseJobHtmlJS (A : AdapterSet) (v : JSVal) (source : String) :
    List Job :=
  match v with
  | .str s => parseJobHtml A s source
  | _ => []

/-- An adapter parse function at the JavaScript boundary.  Each adapter
begins with `cheerio.load(html)`; cheerio's `load` throws
`cheerio.load() expects a string` for `null`/`undefined` content (an
explicit guard in the library) and a `TypeError` deeper in the HTML
parser for other non-strings, and returns a document for every string.
The string body is the embedded adapter. -/
def adapterJS (parse : String → List Job) (v : JSVal) :
    Except String (List Job) :=
  match v with
  | .str s => .ok (parse s)
  | .jsNull | .jsUndefined => .error "cheerio.load() expects a string"
  | _ => .error "TypeError"

/-! ## HTML adapters over document views

Each adapter loads the HTML with cheerio and then only observes a fixed
set of selector queries.  The cheerio layer is modelled as a *document
view*: for every selector tier the list of matched containers, and per
container the `.first().text()` / `.attr(...)` results the extractor
reads, in the order of the selector lists in the source.  Everything
after selection - the candidate loops with their length conditions, the
URL normalization, truncation, `cleanText`, the final title filter and
`deduplicateJobs` - is embedded from the source. -/

/-- One anchor element, as the link fallbacks see it: its `href`
attribute (`""` models a missing attribute, which the source coerces
with `|| ''` or via the falsy guard of the URL normalizers), its text
and its parent's text. -/
structure LinkLike where
  href : String := ""
  text : String := ""
  parentText : String := ""
deriving DecidableEq, Repr

/-- `let cards = $(); for (sel of selectors) { cards = $(sel);
if (cards.length > 0) break }`. -/
def firstNonEmptyTier {α : Type} : List (List α) → List α
  | [] => []
  | t :: rest => if t.length > 0 then t else firstNonEmptyTier rest

/-- The per-selector candidate loop shared by the field extractors: take
the first `.first().text().trim()` satisfying the condition, else keep
the empty string. -/
def firstText (cands : List String) (cond : String → Bool) : String :=
  match cands with
  | [] => ""
  | c :: rest =>
    let t := jsTrim c
    if cond t then t else firstText rest cond

/-- A LinkedIn job card: the texts of the first element matched by each
of the six title selectors, five company selectors, four location
selectors and three description selectors, the first job link's href,
and the result of the salary regex over the card text (the regex engine
itself is not embedded; its match is part of the view). -/
structure LinkedInCard where
  jobHref : Option String := none
  titleTexts : List String := []
  companyTexts : List String := []
  locationTexts : List String := []
  descTexts : List String := []
  salaryMatched : Option String := none
deriving DecidableEq, Repr

structure LinkedInDoc where
  cardTiers : List (List LinkedInCard) := []
  fallbackLinks : List LinkLike := []
deriving DecidableEq, Repr

/-- `extractJobFromCard` of `parsers/linkedin.js`. -/
def extractLinkedInCard (c : LinkedInCard) : Job :=
  let jobUrl :=
    match c.jobHref with
    | some h => normalizeLinkedInUrl h
    | none => ""
  let title := firstText c.titleTexts
    (fun t => t != "" && 2 < jsLen t && jsLen t < 200)
  let companyName := firstText c.companyTexts
    (fun t => t != "" && t != title && 1 < jsLen t && jsLen t < 100)
  let location := firstText c.locationTexts
    (fun t => t != "" && 2 < jsLen t && jsLen t < 100)
  let description :=
    jsSubstring (firstText c.descTexts (fun t => t != "" && 10 < jsLen t)) 500
  let salaryText :=
    match c.salaryMatched with
    | some m => jsTrim m
    | none => ""
  { title := cleanText title, companyName := cleanText companyName,
    location := cleanText location, jobUrl := jobUrl,
    description := cleanText description, salaryText := salaryText,
    source := "LinkedIn" }

/-- `extractJobFromLink` of `parsers/linkedin.js`. -/
def extractLinkedInLink (v : LinkLike) : Job :=
  let jobUrl := normalizeLinkedInUrl v.href
  let title := cleanText v.text
  let siblingText := jsTrim (jsRemoveFirst v.parentText title)
  { title := title, companyName := "", location := "", jobUrl := jobUrl,
    description := jsSubstring siblingText 200, salaryText := "",
    source := "LinkedIn" }

/-- `parseLinkedIn`: first non-empty card tier, else the job-link
fallback; keep extracted jobs with a truthy title; deduplicate. -/
def parseLinkedInDoc (d : LinkedInDoc) : List Job :=
  let cards := firstNonEmptyTier d.cardTiers
  if cards.length = 0 then
    deduplicateJobs
      ((d.fallbackLinks.map extractLinkedInLink).filter (fun j => j.title != ""))
  else
    deduplicateJobs
      ((cards.map extractLinkedInCard).filter (fun j => j.title != ""))

/-- An Indeed job card view. -/
structure IndeedCard where
  dataJk : Option String := none
  linkDataJk : Option String := none
  jobLink : Option String := none
  titleTexts : List String := []
  companyTexts : List String := []
  locationTexts : List String := []
  salaryTexts : List String := []
  descTexts : List String := []
  metadataText : String := ""
deriving DecidableEq, Repr

structure IndeedDoc where
  cardTiers : List (List IndeedCard) := []
deriving DecidableEq, Repr

/-- `text.match(/[£$€\d]/)`: does the text contain a currency symbol or
digit. -/
def hasCurrencyOrDigit (s : String) : Bool :=
  s.toList.any (fun c => c = '£' || c = '$' || c = '€' || c.isDigit)

/-- `extractJobFromCard` of `parsers/indeed.js`. -/
def extractIndeedCard (c : IndeedCard) : Job :=
  let jobId0 := c.dataJk.getD ""
  let jobId := if jobId0 = "" then c.linkDataJk.getD "" else jobId0
  let jobUrl :=
    match c.jobLink with
    | some href => normalizeIndeedUrl href jobId
    | none =>
      if jobId != "" then "https://uk.indeed.com/viewjob?jk=" ++ jobId
      else ""
  let title := firstText c.titleTexts
    (fun t => t != "" && 2 < jsLen t && jsLen t < 200)
  let companyName := firstText c.companyTexts
    (fun t => t != "" && 1 < jsLen t && jsLen t < 100)
  let location := firstText c.locationTexts
    (fun t => t != "" && 2 < jsLen t && jsLen t < 100)
  let salaryText := firstText c.salaryTexts
    (fun t => t != "" && hasCurrencyOrDigit t)
  let description :=
    jsSubstring (firstText c.descTexts (fun t => t != "" && 10 < jsLen t)) 500
  let md := jsToLower c.metadataText
  let jobType :=
    if jsIncludes md "remote" then "Remote"
    else if jsIncludes md "hybrid" then "Hybrid"
    else ""
  { title := cleanText title, companyName := cleanText companyName,
    location := cleanText location
      ++ (if jobType != "" then " (" ++ jobType ++ ")" else ""),
    jobUrl := jobUrl, description := cleanText description,
    salaryText := cleanText salaryText, source := "Indeed" }

/-- `parseIndeed`: card tiers only (no link fallback); keep jobs with a
truthy title; deduplicate. -/
def parseIndeedDoc (d : IndeedDoc) : List Job :=
  let cards := firstNonEmptyTier d.cardTiers
  deduplicateJobs
    ((cards.map extractIndeedCard).filter (fun j => j.title != ""))

/-- An Otta job card view; `tagTexts` are the texts of the matched
tag/skill elements in document order. -/
structure OttaCard where
  jobHref : Option String := none
  titleTexts : List String := []
  companyTexts : List String := []
  locationTexts : List String := []
  salaryMatched : Option String := none
  tagTexts : List String := []
deriving DecidableEq, Repr

structure OttaDoc where
  cardTiers : List (List OttaCard) := []
  jobLinks : List LinkLike := []
deriving DecidableEq, Repr

/-- `extractJobFromCard` of `parsers/otta.js`. -/
def extractOttaCard (c : OttaCard) : Job :=
  let jobUrl :=
    match c.jobHref with
    | some h => normalizeOttaUrl h
    | none => ""
  let title := firstText c.titleTexts
    (fun t => t != "" && 2 < jsLen t && jsLen t < 200)
  let companyName := firstText c.companyTexts
    (fun t => t != "" && t != title && 1 < jsLen t && jsLen t < 100)
  let location := firstText c.locationTexts
    (fun t => t != "" && 2 < jsLen t && jsLen t < 100)
  let salaryText :=
    match c.salaryMatched with
    | some m => jsTrim m
    | none => ""
  let tags := (c.tagTexts.map jsTrim).filter
    (fun t => t != "" && jsLen t < 50)
  let description :=
    if tags.length > 0 then "Skills: " ++ joinSep ", " tags else ""
  { title := cleanText title, companyName := cleanText companyName,
    location := cleanText location, jobUrl := jobUrl,
    description := cleanText description, salaryText := salaryText,
    source := "Otta" }

/-- `extractJobFromLink` of `parsers/otta.js`. -/
def extractOttaLink (v : LinkLike) : Job :=
  { title := cleanText v.text, companyName := "", location := "",
    jobUrl := normalizeOttaUrl v.href, description := "", salaryText := "",
    source := "Otta" }

/-- `parseOtta`: card tiers, else the `/jobs/` link fallback filtered on
`href.includes('/jobs/') && !href.includes('/jobs/search')`. -/
def parseOttaDoc (d : OttaDoc) : List Job :=
  let cards := firstNonEmptyTier d.cardTiers
  if cards.length = 0 then
    let links := d.jobLinks.filter (fun v =>
      v.href != "" && jsIncludes v.href "/jobs/"
        && !jsIncludes v.href "/jobs/search")
    deduplicateJobs
      ((links.map extractOttaLink).filter (fun j => j.title != ""))
  else
    deduplicateJobs
      ((cards.map extractOttaCard).filter (fun j => j.title != ""))

/-- A Greenhouse board card (`.opening` and friends): the first link's
text and href, and the location selector's text. -/
structure GreenhouseCard where
  linkText : String := ""
  linkHref : Option String := none
  locationText : String := ""
deriving DecidableEq, Repr

structure GreenhouseDoc where
  cardTiers : List (List GreenhouseCard) := []
  jobLinks : List LinkLike := []
deriving DecidableEq, Repr

def extractGreenhouseCard (c : GreenhouseCard) : Job :=
  let title := cleanText c.linkText
  let jobUrl0 := c.linkHref.getD ""
  let jobUrl :=
    if jobUrl0 != "" && !jsStartsWith jobUrl0 "http" then
      "https://boards.greenhouse.io" ++ jobUrl0
    else jobUrl0
  { title := title, companyName := "",
    location := cleanText c.locationText, jobUrl := jobUrl,
    description := "", salaryText := "", source := "Greenhouse" }

/-- The Greenhouse `/jobs/` link fallback entry. -/
def extractGreenhouseLink (v : LinkLike) : Job :=
  { title := cleanText v.text, companyName := "", location := "",
    jobUrl :=
      if jsStartsWith v.href "http" then v.href
      else "https://boards.greenhouse.io" ++ v.href,
    description := "", salaryText := "", source := "Greenhouse" }

def parseGreenhouseDoc (d : GreenhouseDoc) : List Job :=
  let cards := firstNonEmptyTier d.cardTiers
  if cards.length = 0 then
    deduplicateJobs ((d.jobLinks.map extractGreenhouseLink).filter
      (fun j => j.title != "" && 2 < jsLen j.title && jsLen j.title < 200))
  else
    deduplicateJobs
      ((cards.map extractGreenhouseCard).filter (fun j => j.title != ""))

/-- A Lever board card (`.posting`). -/
structure LeverCard where
  titleText : String := ""
  linkHref : Option String := none
  locationText : String := ""
  teamText : String := ""
deriving DecidableEq, Repr

structure LeverDoc where
  cardTiers : List (List LeverCard) := []
  jobLinks : List LinkLike := []
deriving DecidableEq, Repr

def extractLeverCard (c : LeverCard) : Job :=
  let title := cleanText c.titleText
  let team := cleanText c.teamText
  { title := title, companyName := "",
    location := cleanText c.locationText,
    jobUrl := c.linkHref.getD "",
    description := if team != "" then "Team: " ++ team else "",
    salaryText := "", source := "Lever" }

def extractLeverLink (v : LinkLike) : Job :=
  { title := cleanText v.text, companyName := "", location := "",
    jobUrl := v.href, description := "", salaryText := "",
    source := "Lever" }

def parseLeverDoc (d : LeverDoc) : List Job :=
  let cards := firstNonEmptyTier d.cardTiers
  if cards.length = 0 then
    deduplicateJobs ((d.jobLinks.map extractLeverLink).filter
      (fun j => j.title != "" && 2 < jsLen j.title && jsLen j.title < 200))
  else
    deduplicateJobs
      ((cards.map extractLeverCard).filter (fun j => j.title != ""))

/-- An Ashby/Rippling style card: the card may itself be a link
(`$card.is('a')`), in which case its own text/href are used. -/
structure LinkishCard where
  isLink : Bool := false
  ownText : String := ""
  ownHref : Option String := none
  titleText : String := ""
  firstLinkHref : Option String := none
  locationText : String := ""
  teamText : String := ""
deriving DecidableEq, Repr

structure LinkishDoc where
  cardTiers : List (List LinkishCard) := []
  jobLinks : List LinkLike := []
deriving DecidableEq, Repr

/-- The shared card extractor shape of `parseAshby`/`parseRippling`,
parameterized by the domain prefix, description label and source name. -/
def extractLinkishCard (domain label src : String) (c : LinkishCard) :
    Job :=
  let title :=
    if c.isLink then cleanText c.ownText else cleanText c.titleText
  let jobUrl0 :=
    if c.isLink then c.ownHref.getD "" else c.firstLinkHref.getD ""
  let jobUrl :=
    if jobUrl0 != "" && !jsStartsWith jobUrl0 "http" then domain ++ jobUrl0
    else jobUrl0
  let team := cleanText c.teamText
  { title := title, companyName := "",
    location := cleanText c.locationText, jobUrl := jobUrl,
    description := if team != "" then label ++ ": " ++ team else "",
    salaryText := "", source := src }

def extractLinkishLink (domain src : String) (v : LinkLike) : Job :=
  let href :=
    if v.href != "" && !jsStartsWith v.href "http" then domain ++ v.href
    else v.href
  { title := cleanText v.text, companyName := "", location := "",
    jobUrl := href, description := "", salaryText := "", source := src }

def parseLinkishDoc (domain label src : String) (d : LinkishDoc) :
    List Job :=
  let cards := firstNonEmptyTier d.cardTiers
  if cards.length = 0 then
    deduplicateJobs ((d.jobLinks.map (extractLinkishLink domain src)).filter
      (fun j => j.title != "" && 2 < jsLen j.title && jsLen j.title < 200))
  else
    deduplicateJobs ((cards.map (extractLinkishCard domain label src)).filter
      (fun j => j.title != ""))

/-- `parseAshby` over its document view. -/
def parseAshbyDoc (d : LinkishDoc) : List Job :=
  parseLinkishDoc "https://jobs.ashbyhq.com" "Team" "Ashby" d

/-- `parseRippling` over its document view. -/
def parseRipplingDoc (d : LinkishDoc) : List Job :=
  parseLinkishDoc "https://ats.rippling.com" "Department" "Rippling" d

/-! ## API adapters (pure JSON logic)

The JSON payload fields each API parser reads are modelled as `Option
String` (`none` is `undefined`/absent); numeric ids interpolated into
template literals are modelled by their string form, with `undefined`
interpolating as the text `"undefined"`. -/

/-- JavaScript `a || b` on an optional string: the fallback when the
value is absent or empty (falsy). -/
def jsOr (a : Option String) (b : String) : String :=
  match a with
  | some v => if v = "" then b else v
  | none => b

/-- `` `${x}` `` for a possibly-absent value. -/
def jsTemplate (o : Option String) : String := o.getD "undefined"

/-- Return the suffix after the first `>`, if any. -/
def afterGt? (l : List Char) : Option (List Char) :=
  match l.dropWhile (fun c => c ≠ '>') with
  | [] => none
  | _ :: rest => some rest

/-- `content.replace(/<[^>]*>/g, ' ')` with explicit fuel (always
sufficient: every step consumes at least one character): each `<` ... `>`
run becomes one space; a `<` with no later `>` stays literal. -/
def stripTagsFuel : Nat → List Char → List Char
  | 0, l => l
  | _ + 1, [] => []
  | n + 1, '<' :: rest =>
    (match afterGt? rest with
     | some suffix => ' ' :: stripTagsFuel n suffix
     | none => '<' :: stripTagsFuel n rest)
  | n + 1, c :: rest => c :: stripTagsFuel n rest

def stripTags (s : String) : String :=
  String.mk (stripTagsFuel s.toList.length s.toList)

/-- One entry of the Greenhouse jobs API
(`boards-api.greenhouse.io/v1/boards/{org}/jobs`).  `content` is `some`
exactly when `entry.content` is a string (the source checks
`typeof entry.content === 'string'`). -/
structure GreenhouseApiEntry where
  title : Option String := none
  locationName : Option String := none
  absoluteUrl : Option String := none
  id : Option String := none
  content : Option String := none
deriving DecidableEq, Repr

/-- The record built for one Greenhouse API entry. -/
def greenhouseApiJob (org : String) (entry : GreenhouseApiEntry) : Job :=
  let title := cleanText (entry.title.getD "")
  let location := cleanText (entry.locationName.getD "")
  let jobUrl := jsOr entry.absoluteUrl
    ("https://boards.greenhouse.io/" ++ org ++ "/jobs/"
      ++ jsTemplate entry.id)
  let description := cleanText
    (match entry.content with
     | some c => stripTags c
     | none => "")
  { title := title, companyName := org, location := location,
    jobUrl := jobUrl, description := jsSubstring description 500,
    salaryText := "", source := "Greenhouse" }

/-- `parseGreenhouseApi(json, org)`; the argument is `json?.jobs || []`
(`none` models an absent `jobs` field).  The `if (!title) continue`
guard appears as the title filter. -/
def parseGreenhouseApi (jobsField : Option (List GreenhouseApiEntry))
    (org : String) : List Job :=
  deduplicateJobs (((jobsField.getD []).map (greenhouseApiJob org)).filter
    (fun j => j.title != ""))

/-- One entry of the Lever postings API
(`api.lever.co/v0/postings/{org}`). -/
structure LeverApiEntry where
  text : Option String := none
  categoriesLocation : Option String := none
  categoriesTeam : Option String := none
  categoriesCommitment : Option String := none
  hostedUrl : Option String := none
  applyUrl : Option String := none
  id : Option String := none
deriving DecidableEq, Repr

/-- The record built for one Lever API entry. -/
def leverApiJob (org : String) (entry : LeverApiEntry) : Job :=
  let title := cleanText (entry.text.getD "")
  let location := cleanText (entry.categoriesLocation.getD "")
  let team := cleanText (entry.categoriesTeam.getD "")
  let jobUrl := jsOr entry.hostedUrl (jsOr entry.applyUrl
    ("https://jobs.lever.co/" ++ org ++ "/" ++ jsTemplate entry.id))
  let descParts :=
    (if team != "" then ["Team: " ++ team] else [])
      ++ (match entry.categoriesCommitment with
          | some c => if c = "" then [] else [c]
          | none => [])
  { title := title, companyName := org, location := location,
    jobUrl := jobUrl, description := joinSep " | " descParts,
    salaryText := "", source := "Lever" }

/-- `parseLeverApi(json, org)`; `none` models a non-array payload
(`Array.isArray(json) ? json : []`). -/
def parseLeverApi (json : Option (List LeverApiEntry)) (org : String) :
    List Job :=
  deduplicateJobs (((json.getD []).map (leverApiJob org)).filter
    (fun j => j.title != ""))

/-- One entry of the Ashby job-board API
(`api.ashbyhq.com/posting-api/job-board/{org}`). -/
structure AshbyApiEntry where
  title : Option String := none
  location : Option String := none
  locationName : Option String := none
  departmentName : Option String := none
  team : Option String := none
  jobUrl : Option String := none
  applyUrl : Option String := none
  id : Option String := none
  employmentType : Option String := none
deriving DecidableEq, Repr

/-- The record built for one Ashby API entry. -/
def ashbyApiJob (org : String) (entry : AshbyApiEntry) : Job :=
  let title := cleanText (entry.title.getD "")
  let location := cleanText (jsOr entry.location
    (jsOr entry.locationName ""))
  let team := cleanText (jsOr entry.departmentName
    (jsOr entry.team ""))
  let jobUrl := jsOr entry.jobUrl (jsOr entry.applyUrl
    ("https://jobs.ashbyhq.com/" ++ org ++ "/" ++ jsTemplate entry.id))
  let descParts :=
    (if team != "" then ["Team: " ++ team] else [])
      ++ (match entry.employmentType with
          | some e => if e = "" then [] else [e]
          | none => [])
  { title := title, companyName := org, location := location,
    jobUrl := jobUrl, description := joinSep " | " descParts,
    salaryText := "", source := "Ashby" }

/-- `parseAshbyApi(json, org)`; the argument is `json?.jobs || []`. -/
def parseAshbyApi (jobsField : Option (List AshbyApiEntry))
    (org : String) : List Job :=
  deduplicateJobs (((jobsField.getD []).map (ashbyApiJob org)).filter
    (fun j => j.title != ""))

/-- One entry of the Rippling public board API; `location`/`department`
may be an object with a `name` or a plain string, modelled as separate
optional fields. -/
structure RipplingApiEntry where
  title : Option String := none
  name : Option String := none
  locationObjName : Option String := none
  locationStr : Option String := none
  locationName : Option String := none
  departmentObjName : Option String := none
  departmentStr : Option String := none
  url : Option String := none
  applyUrl : Option String := none
  id : Option String := none
  employmentType : Option String := none
deriving DecidableEq, Repr

/-- The record built for one Rippling API entry. -/
def ripplingApiJob (org : String) (entry : RipplingApiEntry) : Job :=
  let title := cleanText (jsOr entry.title (jsOr entry.name ""))
  let location := cleanText (jsOr entry.locationObjName
    (jsOr entry.locationStr (jsOr entry.locationName "")))
  let department := cleanText (jsOr entry.departmentObjName
    (jsOr entry.departmentStr ""))
  let jobUrl := jsOr entry.url (jsOr entry.applyUrl
    ("https://ats.rippling.com/" ++ org ++ "/jobs/"
      ++ jsTemplate entry.id))
  let descParts :=
    (if department != "" then ["Department: " ++ department] else [])
      ++ (match entry.employmentType with
          | some e => if e = "" then [] else [e]
          | none => [])
  { title := title, companyName := org, location := location,
    jobUrl := jobUrl, description := joinSep " | " descParts,
    salaryText := "", source := "Rippling" }

/-- `parseRipplingApi(json, org)`; the argument models
`Array.isArray(json) ? json : (json?.jobs || json?.data || [])`. -/
def parseRipplingApi (entries : List RipplingApiEntry) (org : String) :
    List Job :=
  deduplicateJobs ((entries.map (ripplingApiJob org)).filter
    (fun j => j.title != ""))

/-! ## Batch scoring, ingestion entrypoint, discovery sweep -/

/-- A job with its score attached
(`{ ...job, matchScore, scoreMatches }`). -/
structure ScoredJob where
  job : Job
  matchScore : Int
  greenMatches : List FlagMatch
  redMatches : List FlagMatch
deriving DecidableEq, Repr

/-- Insert into a descending-sorted list, before the first element whose
score is not larger: together with `sortByScoreDesc` this is a stable
descending sort, the behavior the ECMAScript standard mandates for
`scoredJobs.sort((a, b) => b.matchScore - a.matchScore)`. -/
def insertDescending (x : ScoredJob) : List ScoredJob → List ScoredJob
  | [] => [x]
  | y :: rest =>
    if x.matchScore < y.matchScore then y :: insertDescending x rest
    else x :: y :: rest

def sortByScoreDesc : List ScoredJob → List ScoredJob
  | [] => []
  | x :: rest => insertDescending x (sortByScoreDesc rest)

/-- `scoreJobs(jobs)` from `services/scoring.js`: score each job against
the active-zone snapshot and sort descending by score (stable). -/
def scoreJobs (zones : List RadarZone) (jobs : List Job) :
    List ScoredJob :=
  sortByScoreDesc (jobs.map (fun j =>
    let r := calculateScore j zones
    ⟨j, r.score, r.greenFlags, r.redFlags⟩))

/-- The responses of `POST /api/radar/ingest` that the model
distinguishes: the 400 client error, the success response of the
no-jobs branch (it carries `stats: {parsed: 0, new: 0, duplicates: 0}`),
and the success response with stats and saved leads. -/
inductive IngestResponse where
  | clientError (msg : String)
  | noJobs
  | saved (parsed newCount duplicates : Nat) (leads : List Job)
deriving DecidableEq, Repr

/-- The save loop of the ingest route: per scored job, count a duplicate
when a lead with the same `jobUrl` exists, else create the lead (its URL
joins the store) and count it new. -/
def ingestSaveStep (acc : Nat × Nat × List Job × List String)
    (sj : ScoredJob) : Nat × Nat × List Job × List String :=
  let (newC, dupC, leads, db) := acc
  if sj.job.jobUrl ∈ db then (newC, dupC + 1, leads, db)
  else (newC + 1, dupC, leads ++ [sj.job], sj.job.jobUrl :: db)

/-- `POST /api/radar/ingest` (`index.js`), with the active zones and the
set of persisted `jobUrl`s passed explicitly: falsy `rawHtml` is rejected
with the 400 `rawHtml is required`; otherwise the HTML is parsed (a
non-string or unparseable body parses to no jobs), an empty parse yields
the zero-stats success, and otherwise the scored jobs are saved
skipping duplicates. -/
def ingestRadar (A : AdapterSet) (zones : List RadarZone)
    (db : List String) (rawHtml : JSVal) (source : String) :
    IngestResponse × List String :=
  if !jsTruthy rawHtml then (.clientError "rawHtml is required", db)
  else
    let parsedJobs := parseJobHtmlJS A rawHtml source
    if parsedJobs.length = 0 then (.noJobs, db)
    else
      let scoredJobs := scoreJobs zones parsedJobs
      let r := scoredJobs.foldl ingestSaveStep (0, 0, [], db)
      (.saved parsedJobs.length r.1 r.2.1 r.2.2.1, r.2.2.2)

/-- The external capabilities of a discovery sweep: the adapter set
behind `parseJobHtml` and the puppeteer fetch (`none` models a fetch or
render failure, returned as `null`). -/
structure SweepEnv where
  adapters : AdapterSet
  fetchHtml : String → Option String

def hexDigitUpper (n : Nat) : Char :=
  if n < 10 then Char.ofNat (48 + n) else Char.ofNat (55 + n)

/-- The UTF-8 bytes of a character, as numbers. -/
def utf8Bytes (c : Char) : List Nat :=
  let n := c.toNat
  if n < 128 then [n]
  else if n < 2048 then [192 + n / 64, 128 + n % 64]
  else if n < 65536 then
    [224 + n / 4096, 128 + (n / 64) % 64, 128 + n % 64]
  else
    [240 + n / 262144, 128 + (n / 4096) % 64, 128 + (n / 64) % 64,
     128 + n % 64]

/-- The bytes `encodeURIComponent` leaves unescaped:
`A-Z a-z 0-9 - _ . ! ~ * ' ( )`. -/
def isUnreservedByte (n : Nat) : Bool :=
  (65 ≤ n && n ≤ 90) || (97 ≤ n && n ≤ 122) || (48 ≤ n && n ≤ 57)
    || n = 45 || n = 95 || n = 46 || n = 33 || n = 126 || n = 42
    || n = 39 || n = 40 || n = 41

/-- `encodeURIComponent`: percent-encode every UTF-8 byte outside the
unreserved set. -/
def encodeURIComponent (s : String) : String :=
  String.mk (s.toList.foldr
    (fun c acc =>
      (utf8Bytes c).foldr
        (fun n acc2 =>
          (if isUnreservedByte n then [Char.ofNat n]
           else ['%', hexDigitUpper (n / 16), hexDigitUpper (n % 16)])
            ++ acc2)
        acc)
    [])

/-- `generateSearchUrls(title, location)` from `services/discovery.js`:
the fixed LinkedIn and Indeed search tasks (source name, url). -/
def generateSearchUrls (title location : String) :
    List (String × String) :=
  let encodedTitle := encodeURIComponent title
  let encodedLocation := encodeURIComponent location
  [("LinkedIn",
    "https://www.linkedin.com/jobs/search/?keywords=" ++ encodedTitle
      ++ "&location=" ++ encodedLocation ++ "&f_TPR=r604800"),
   ("Indeed",
    "https://uk.indeed.com/jobs?q=" ++ encodedTitle ++ "&l="
      ++ encodedLocation ++ "&fromage=7")]

/-- The per-job step of the sweep save loop: `totalProcessed++`, then
skip an existing URL or create the lead and `totalNew++`.  The state is
(persisted urls, processed, new). -/
def processScoredJob (st : List String × Nat × Nat) (sj : ScoredJob) :
    List String × Nat × Nat :=
  let (db, processed, newC) := st
  if sj.job.jobUrl ∈ db then (db, processed + 1, newC)
  else (sj.job.jobUrl :: db, processed + 1, newC + 1)

/-- One zone × source unit of the sweep: fetch the rendered page (a
failed or falsy fetch skips the unit), parse via the registry with the
known source, score against the active-zone snapshot, and run the save
loop. -/
def processTask (env : SweepEnv) (snapshot : List RadarZone)
    (st : List String × Nat × Nat) (task : String × String) :
    List String × Nat × Nat :=
  match env.fetchHtml task.2 with
  | none => st
  | some html =>
    if html = "" then st
    else
      let parsedJobs := parseJobHtml env.adapters html task.1
      if parsedJobs.length = 0 then st
      else (scoreJobs snapshot parsedJobs).foldl processScoredJob st

/-- One zone of the sweep: skip the zone when `searchTitle` or
`searchLocation` is falsy, else run its generated search tasks. -/
def processZone (env : SweepEnv) (snapshot : List RadarZone)
    (st : List String × Nat × Nat) (zone : RadarZone) :
    List String × Nat × Nat :=
  if zone.searchTitle = "" ∨ zone.searchLocation = "" then st
  else
    (generateSearchUrls zone.searchTitle zone.searchLocation).foldl
      (processTask env snapshot) st

/-- The zone loop of the sweep over an already-taken active-zone
snapshot. -/
def sweepLoop (env : SweepEnv) (snapshot : List RadarZone)
    (zoneList : List RadarZone) (st : List String × Nat × Nat) :
    List String × Nat × Nat :=
  zoneList.foldl (processZone env snapshot) st

/-- The aggregate counters a sweep returns. -/
structure SweepStats where
  processed : Nat
  newLeads : Nat
deriving DecidableEq, Repr

/-- `performDiscoverySweep` (`services/discovery.js`), with the zone
table and the persisted urls passed explicitly: read the active zones
once, loop over them, and return `{processed, new}` together with the
updated store. -/
def performDiscoverySweep (env : SweepEnv) (allZones : List RadarZone)
    (db : List String) : SweepStats × List String :=
  let activeZones := allZones.filter (·.active)
  let r := sweepLoop env activeZones activeZones (db, 0, 0)
  (⟨r.2.1, r.2.2⟩, r.1)

/-! ## Per-adapter parse functions at the JavaScript boundary -/

def parseLinkedInJS (docOf : String → LinkedInDoc) :
    JSVal → Except String (List Job) :=
  adapterJS (fun s => parseLinkedInDoc (docOf s))

def parseIndeedJS (docOf : String → IndeedDoc) :
    JSVal → Except String (List Job) :=
  adapterJS (fun s => parseIndeedDoc (docOf s))

def parseOttaJS (docOf : String → OttaDoc) :
    JSVal → Except String (List Job) :=
  adapterJS (fun s => parseOttaDoc (docOf s))

def parseGreenhouseJS (docOf : String → GreenhouseDoc) :
    JSVal → Except String (List Job) :=
  adapterJS (fun s => parseGreenhouseDoc (docOf s))

def parseLeverJS (docOf : String → LeverDoc) :
    JSVal → Except String (List Job) :=
  adapterJS (fun s => parseLeverDoc (docOf s))

def parseAshbyJS (docOf : String → LinkishDoc) :
    JSVal → Except String (List Job) :=
  adapterJS (fun s => parseAshbyDoc (docOf s))

def parseRipplingJS (docOf : String → LinkishDoc) :
    JSVal → Except String (List Job) :=
  adapterJS (fun s => parseRipplingDoc (docOf s))

/-! ## Concrete fixtures used by the claim instances -/

/-- An adapter set extracting nothing from any document. -/
def emptyAdapterSet : AdapterSet :=
  { parseLinkedIn := fun _ => [], parseIndeed := fun _ => [],
    parseOtta := fun _ => [], parseGreenhouse := fun _ => [],
    parseLever := fun _ => [], parseAshby := fun _ => [],
    parseRippling := fun _ => [] }

def sweepJobA : Job :=
  { title := "A", jobUrl := "https://jobs.example/a", source := "LinkedIn" }

def sweepJobB : Job :=
  { title := "B", jobUrl := "https://jobs.example/b", source := "Indeed" }

/-- A sweep environment in which every fetch succeeds, the LinkedIn
parser always yields `sweepJobA` and the Indeed parser always yields
`sweepJobB`. -/
def sweepEnvC : SweepEnv :=
  { adapters :=
      { emptyAdapterSet with
        parseLinkedIn := fun _ => [sweepJobA],
        parseIndeed := fun _ => [sweepJobB] },
    fetchHtml := fun _ => some "page" }

/-- An active zone with a search title but no search location. -/
def zoneTitleOnly : RadarZone :=
  { name := "Z", searchTitle := "developer", searchLocation := "",
    active := true }

def dupJobX : Job := { title := "X", jobUrl := "https://jobs.example/x" }
def dupJobX2 : Job := { title := "X2", jobUrl := "https://jobs.example/x" }
def dupJobE : Job := { title := "E", jobUrl := "" }

/-- A 600-character department name (no whitespace). -/
def longTeam : String := String.mk (List.replicate 600 'a')

/-- The Ashby API entry with the long department. -/
def ashbyLongEntry : AshbyApiEntry :=
  { title := some "Engineer", departmentName := some longTeam,
    jobUrl := some "https://jobs.ashbyhq.com/acme/1" }

/-! ## Deduplication lemmas -/

theorem dedupGo_sublist (seen : List String) :
    ∀ jobs : List Job, (dedupGo seen jobs).Sublist jobs := by
  intro jobs
  induction jobs generalizing seen with
  | nil => exact List.Sublist.refl []
  | cons j rest ih =>
    unfold dedupGo
    split
    · exact (ih seen).cons j
    · exact (ih (j.jobUrl :: seen)).cons₂ j

theorem dedupGo_mem_props (seen : List String) :
    ∀ (jobs : List Job) (p : Job), p ∈ dedupGo seen jobs →
      p.jobUrl ≠ "" ∧ p.jobUrl ∉ seen := by
  intro jobs
  induction jobs generalizing seen with
  | nil => intro p h; cases h
  | cons j rest ih =>
    intro p h
    unfold dedupGo at h
    split at h
    · exact ih seen p h
    · next hkeep =>
      push_neg at hkeep
      rcases List.mem_cons.1 h with heq | h2
      · subst heq
        exact ⟨hkeep.1, hkeep.2⟩
      · have := ih (j.jobUrl :: seen) p h2
        exact ⟨this.1, fun hm => this.2 (List.mem_cons_of_mem _ hm)⟩

theorem dedupGo_nodup (seen : List String) :
    ∀ jobs : List Job, ((dedupGo seen jobs).map (·.jobUrl)).Nodup := by
  intro jobs
  induction jobs generalizing seen with
  | nil => simp [dedupGo]
  | cons j rest ih =>
    unfold dedupGo
    split
    · exact ih seen
    · rw [List.map_cons]
      refine List.Nodup.cons ?_ (ih (j.jobUrl :: seen))
      intro hmem
      rcases List.mem_map.1 hmem with ⟨p, hp, hurl⟩
      exact (dedupGo_mem_props _ _ p hp).2 (hurl ▸ List.mem_cons_self _ _)

theorem dedupGo_first (seen : List String) :
    ∀ (jobs : List Job) (p : Job), p ∈ dedupGo seen jobs →
      jobs.find? (fun j => j.jobUrl == p.jobUrl) = some p := by
  intro jobs
  induction jobs generalizing seen with
  | nil => intro p h; cases h
  | cons j rest ih =>
    intro p h
    unfold dedupGo at h
    split at h
    · next hskip =>
      have hprops := dedupGo_mem_props seen rest p h
      have hne : (j.jobUrl == p.jobUrl) = false := by
        rw [beq_eq_false_iff_ne]
        intro heq
        rcases hskip with hempty | hseen
        · exact hprops.1 (heq ▸ hempty)
        · exact hprops.2 (heq ▸ hseen)
      rw [List.find?_cons_of_neg _ (by simpa using hne)]
      exact ih seen p h
    · rcases List.mem_cons.1 h with heq | h2
      · rw [List.find?_cons_of_pos _ (by simp [heq])]
        rw [heq]
      · have hprops := dedupGo_mem_props (j.jobUrl :: seen) rest p h2
        have hne : (j.jobUrl == p.jobUrl) = false := by
          rw [beq_eq_false_iff_ne]
          intro heq
          exact hprops.2 (heq ▸ List.mem_cons_self _ _)
        rw [List.find?_cons_of_neg _ (by simpa using hne)]
        exact ih (j.jobUrl :: seen) p h2

theorem dedupGo_complete (seen : List String) :
    ∀ (jobs : List Job) (u : String), u ≠ "" → u ∉ seen →
      (∃ j ∈ jobs, j.jobUrl = u) →
      ∃ p ∈ dedupGo seen jobs, p.jobUrl = u := by
  intro jobs
  induction jobs generalizing seen with
  | nil => intro u _ _ hex; rcases hex with ⟨j, hj, _⟩; cases hj
  | cons j rest ih =>
    intro u hu hseen hex
    by_cases hju : j.jobUrl = u
    · have hkeep : ¬(j.jobUrl = "" ∨ j.jobUrl ∈ seen) := by
        rw [hju]
        push_neg
        exact ⟨hu, hseen⟩
      unfold dedupGo
      rw [if_neg hkeep]
      exact ⟨j, List.mem_cons_self _ _, hju⟩
    · have hex' : ∃ j' ∈ rest, j'.jobUrl = u := by
        rcases hex with ⟨j', hj', hurl⟩
        rcases List.mem_cons.1 hj' with heq | hj2
        · subst heq
          exact absurd hurl hju
        · exact ⟨j', hj2, hurl⟩
      unfold dedupGo
      split
      · exact ih seen u hu hseen hex'
      · have hseen' : u ∉ j.jobUrl :: seen := by
          intro hm
          rcases List.mem_cons.1 hm with heq | hm2
          · exact hju heq.symm
          · exact hseen hm2
        rcases ih (j.jobUrl :: seen) u hu hseen' hex' with ⟨p, hp, hurl⟩
        exact ⟨p, List.mem_cons_of_mem _ hp, hurl⟩

/-! ## Scoring: accumulation lemmas -/

theorem checkGreenFlag_shift (lj : LoweredJob) (f : String) (t : Int)
    (m : List FlagMatch) :
    checkGreenFlag lj f (t, m) =
      (t + (checkGreenFlag lj f (0, [])).1,
       m ++ (checkGreenFlag lj f (0, [])).2) := by
  unfold checkGreenFlag
  simp only []
  split_ifs <;> simp <;> ring

theorem checkRedFlag_shift (lj : LoweredJob) (f : String) (t : Int)
    (m : List FlagMatch) :
    checkRedFlag lj f (t, m) =
      (t + (checkRedFlag lj f (0, [])).1,
       m ++ (checkRedFlag lj f (0, [])).2) := by
  unfold checkRedFlag
  simp only []
  split_ifs <;> simp <;> ring

theorem flagFold_shift (step : String → Int × List FlagMatch → Int × List FlagMatch)
    (hstep : ∀ f t m, step f (t, m) =
      (t + (step f (0, [])).1, m ++ (step f (0, [])).2)) :
    ∀ (l : List String) (t : Int) (m : List FlagMatch),
      l.foldl (fun s f => step f s) (t, m) =
        (t + (l.foldl (fun s f => step f s) (0, [])).1,
         m ++ (l.foldl (fun s f => step f s) (0, [])).2) := by
  intro l
  induction l with
  | nil => intro t m; simp
  | cons f fs ih =>
    intro t m
    simp only [List.foldl_cons]
    rw [hstep f t m, ih (t + (step f (0, [])).1) (m ++ (step f (0, [])).2),
      hstep f 0 []]
    rw [ih (0 + (step f (0, [])).1) ([] ++ (step f (0, [])).2)]
    simp [add_assoc]

theorem zoneStep_shift (lj : LoweredJob) (t : Int) (g r : List FlagMatch)
    (z : RadarZone) :
    zoneStep lj (t, g, r) z =
      (t + (zoneStep lj (0, [], []) z).1,
       g ++ (zoneStep lj (0, [], []) z).2.1,
       r ++ (zoneStep lj (0, [], []) z).2.2) := by
  have hg := flagFold_shift (checkGreenFlag lj) (checkGreenFlag_shift lj)
    z.greenFlags
  have hr := flagFold_shift (checkRedFlag lj) (checkRedFlag_shift lj)
    z.redFlags
  simp only [zoneStep]
  rw [hg t g, hg 0 []]
  dsimp only
  rw [hr, hr,
    hr (0 + (List.foldl (fun s f => checkGreenFlag lj f s) (0, []) z.greenFlags).1) []]
  simp [add_assoc]

theorem calcFold_shift (lj : LoweredJob) (zones : List RadarZone)
    (t : Int) (g r : List FlagMatch) :
    zones.foldl (zoneStep lj) (t, g, r) =
      (t + (calcFold lj zones).1,
       g ++ (calcFold lj zones).2.1,
       r ++ (calcFold lj zones).2.2) := by
  induction zones generalizing t g r with
  | nil => simp [calcFold]
  | cons z zs ih =>
    simp only [calcFold, List.foldl_cons] at *
    rw [zoneStep_shift, ih]
    rcases hA : zoneStep lj (0, [], []) z with ⟨ta, ga, ra⟩
    rw [ih ta ga ra]
    simp [add_assoc]

/-- `calculateScore` agrees with the plain fold: the
`if (zones.length === 0)` early return coincides with the fold's value on
the empty list. -/
theorem calculateScore_eq_fold (job : Job) (zones : List RadarZone) :
    calculateScore job zones =
      ⟨(calcFold (lowerJob job) (zones.filter (·.active))).1,
       (calcFold (lowerJob job) (zones.filter (·.active))).2.1,
       (calcFold (lowerJob job) (zones.filter (·.active))).2.2⟩ := by
  simp only [calculateScore, calcFold]
  by_cases h : (zones.filter (·.active)).isEmpty
  · rw [if_pos h]
    rw [List.isEmpty_iff] at h
    rw [h]
    rfl
  · rw [if_neg h]

theorem calcFold_append (lj : LoweredJob) (zs1 zs2 : List RadarZone) :
    calcFold lj (zs1 ++ zs2) =
      ((calcFold lj zs1).1 + (calcFold lj zs2).1,
       (calcFold lj zs1).2.1 ++ (calcFold lj zs2).2.1,
       (calcFold lj zs1).2.2 ++ (calcFold lj zs2).2.2) := by
  unfold calcFold
  rw [List.foldl_append]
  rcases h : List.foldl (zoneStep lj) (0, [], []) zs1 with ⟨t, g, r⟩
  rw [calcFold_shift]
  simp [calcFold]

theorem sumPoints_append (a b : List FlagMatch) :
    sumPoints (a ++ b) = sumPoints a + sumPoints b := by
  simp [sumPoints]

/-- Invariants preserved by a flag-check fold. -/
theorem flagFold_inv (step : String → Int × List FlagMatch → Int × List FlagMatch)
    (P : Int × List FlagMatch → Prop)
    (hstep : ∀ st f, P st → P (step f st)) :
    ∀ (l : List String) (st : Int × List FlagMatch),
      P st → P (l.foldl (fun s f => step f s) st) := by
  intro l
  induction l with
  | nil => intro st h; exact h
  | cons f fs ih => intro st h; exact ih _ (hstep st f h)

theorem greenInv_push (st : Int × List FlagMatch) (f fld : String)
    (p : Int) (hp : 0 < p) (h : GreenInv st) :
    GreenInv (st.1 + p, st.2 ++ [⟨f, fld, p⟩]) := by
  refine ⟨?_, ?_⟩
  · simp [sumPoints_append, sumPoints, h.1]
  · intro m hm
    rcases List.mem_append.1 hm with hm | hm
    · exact h.2 m hm
    · simp only [List.mem_singleton] at hm
      subst hm
      exact hp

theorem redInv_push (st : Int × List FlagMatch) (f fld : String)
    (p : Int) (hp : p < 0) (h : RedInv st) :
    RedInv (st.1 + p, st.2 ++ [⟨f, fld, p⟩]) := by
  refine ⟨?_, ?_⟩
  · simp [sumPoints_append, sumPoints, h.1]
  · intro m hm
    rcases List.mem_append.1 hm with hm | hm
    · exact h.2 m hm
    · simp only [List.mem_singleton] at hm
      subst hm
      exact hp

theorem checkGreenFlag_inv (lj : LoweredJob) (st : Int × List FlagMatch)
    (f : String) (h : GreenInv st) : GreenInv (checkGreenFlag lj f st) := by
  obtain ⟨h1, h2⟩ := h
  unfold checkGreenFlag
  simp only []
  split_ifs <;>
    (repeat
      first
      | exact ⟨h1, h2⟩
      | refine greenInv_push _ _ _ _ (by norm_num [GREEN_FLAG_TITLE,
          GREEN_FLAG_COMPANY, GREEN_FLAG_LOCATION,
          GREEN_FLAG_DESCRIPTION]) ?_)

theorem checkRedFlag_inv (lj : LoweredJob) (st : Int × List FlagMatch)
    (f : String) (h : RedInv st) : RedInv (checkRedFlag lj f st) := by
  obtain ⟨h1, h2⟩ := h
  unfold checkRedFlag
  simp only []
  split_ifs <;>
    (repeat
      first
      | exact ⟨h1, h2⟩
      | refine redInv_push _ _ _ _ (by norm_num [RED_FLAG_TITLE,
          RED_FLAG_COMPANY, RED_FLAG_LOCATION, RED_FLAG_DESCRIPTION]) ?_)

theorem zoneDelta_audit (lj : LoweredJob) (z : RadarZone) :
    AuditInv (zoneStep lj (0, [], []) z) := by
  have hg : GreenInv (z.greenFlags.foldl (fun s f => checkGreenFlag lj f s)
      (0, [])) :=
    flagFold_inv _ GreenInv (fun st f h => checkGreenFlag_inv lj st f h)
      z.greenFlags (0, []) ⟨by simp [sumPoints], by simp⟩
  have hr : RedInv (z.redFlags.foldl (fun s f => checkRedFlag lj f s)
      (0, [])) :=
    flagFold_inv _ RedInv (fun st f h => checkRedFlag_inv lj st f h)
      z.redFlags (0, []) ⟨by simp [sumPoints], by simp⟩
  have hshift := flagFold_shift (checkRedFlag lj) (checkRedFlag_shift lj)
    z.redFlags
  unfold zoneStep
  dsimp only
  rw [hshift]
  refine ⟨?_, ?_, ?_⟩
  · dsimp only
    rw [hg.1, hr.1]
    simp
  · exact hg.2
  · simpa using hr.2

theorem calcFold_audit (lj : LoweredJob) (zones : List RadarZone) :
    AuditInv (calcFold lj zones) := by
  induction zones with
  | nil =>
    refine ⟨?_, ?_, ?_⟩ <;> simp [calcFold, sumPoints]
  | cons z zs ih =>
    have hz := zoneDelta_audit lj z
    have : calcFold lj (z :: zs) =
        ((zoneStep lj (0, [], []) z).1 + (calcFold lj zs).1,
         (zoneStep lj (0, [], []) z).2.1 ++ (calcFold lj zs).2.1,
         (zoneStep lj (0, [], []) z).2.2 ++ (calcFold lj zs).2.2) := by
      unfold calcFold
      rw [List.foldl_cons]
      rcases hA : zoneStep lj (0, [], []) z with ⟨ta, ga, ra⟩
      rw [calcFold_shift]
      simp [calcFold]
    rw [this]
    refine ⟨?_, ?_, ?_⟩
    · dsimp only
      rw [sumPoints_append, sumPoints_append, hz.1, ih.1]
      ring
    · intro m hm
      rcases List.mem_append.1 hm with hm | hm
      · exact hz.2.1 m hm
      · exact ih.2.1 m hm
    · intro m hm
      rcases List.mem_append.1 hm with hm | hm
      · exact hz.2.2 m hm
      · exact ih.2.2 m hm

/-! ## Claim theorems: scoring -/

/-- C1.  Score contributions from all active zones are summed: for every
posting and all zone lists `zs1`, `zs2`, the score against `zs1 ++ zs2`
is the score against `zs1` plus the score against `zs2`, and the audit
match lists are the concatenations of the per-list match lists.  A
posting matching green flags in several zones therefore accumulates all
those zones' points. -/
theorem score_zones_additive (job : Job) (zs1 zs2 : List RadarZone) :
    (calculateScore job (zs1 ++ zs2)).score
        = (calculateScore job zs1).score + (calculateScore job zs2).score
    ∧ (calculateScore job (zs1 ++ zs2)).greenFlags
        = (calculateScore job zs1).greenFlags
            ++ (calculateScore job zs2).greenFlags
    ∧ (calculateScore job (zs1 ++ zs2)).redFlags
        = (calculateScore job zs1).redFlags
            ++ (calculateScore job zs2).redFlags := by
  rw [calculateScore_eq_fold, calculateScore_eq_fold, calculateScore_eq_fold,
    List.filter_append, calcFold_append]
  exact ⟨rfl, rfl, rfl⟩

/-- C2.  The worked example: a posting titled "Python Developer" located
"On-site NY", scored against zone Z1 (green flag "python") and zone Z2
(red flag "on-site"), scores exactly 25 - 50 = -25, with exactly one
green audit entry ("python" in the title, +25) and one red audit entry
("on-site" in the location, -50). -/
theorem score_python_onsite_example :
    calculateScore examplePythonJob [exampleZoneZ1, exampleZoneZ2] =
      { score := -25,
        greenFlags := [⟨"python", "title", 25⟩],
        redFlags := [⟨"on-site", "location", -50⟩] } := by
  decide

/-- C10.  The audit trail fully accounts for the score: for every job and
zone list, the score equals the sum of the `points` of all green and red
audit entries together, every green entry carries strictly positive
points, and every red entry carries strictly negative points. -/
theorem score_equals_audit_sum (job : Job) (zones : List RadarZone) :
    (calculateScore job zones).score
        = sumPoints (calculateScore job zones).greenFlags
            + sumPoints (calculateScore job zones).redFlags
    ∧ (∀ m ∈ (calculateScore job zones).greenFlags, 0 < m.points)
    ∧ (∀ m ∈ (calculateScore job zones).redFlags, m.points < 0) := by
  rw [calculateScore_eq_fold]
  exact calcFold_audit (lowerJob job) (zones.filter (·.active))

/-- Witness for C10 at the worked example: the green entry
("python", title, +25) is in the audit list and its points are positive,
and the concrete score -25 is the audit sum. -/
theorem score_equals_audit_sum_witness :
    (FlagMatch.mk "python" "title" 25
        ∈ (calculateScore examplePythonJob
            [exampleZoneZ1, exampleZoneZ2]).greenFlags)
    ∧ (0 : Int) < (FlagMatch.mk "python" "title" 25).points
    ∧ (calculateScore examplePythonJob [exampleZoneZ1, exampleZoneZ2]).score
        = sumPoints (calculateScore examplePythonJob
              [exampleZoneZ1, exampleZoneZ2]).greenFlags
            + sumPoints (calculateScore examplePythonJob
              [exampleZoneZ1, exampleZoneZ2]).redFlags :=
  ⟨by decide,
   (score_equals_audit_sum examplePythonJob
       [exampleZoneZ1, exampleZoneZ2]).2.1
     (FlagMatch.mk "python" "title" 25) (by decide),
   (score_equals_audit_sum examplePythonJob
       [exampleZoneZ1, exampleZoneZ2]).1⟩

/-! ## Claim theorems: entrypoints and dispatcher -/

/-- C4 (counterexample).  An adapter parse function called directly with
`null` raises: `cheerio.load(null)` throws its explicit
`cheerio.load() expects a string` error before any extraction happens,
so `parseLinkedIn(null)` is an exception, not an array. -/
theorem parseLinkedIn_null_raises :
    parseLinkedInJS (fun _ => {}) JSVal.jsNull
      = Except.error "cheerio.load() expects a string"
    ∧ parseLinkedInJS (fun _ => {}) JSVal.jsUndefined
      = Except.error "cheerio.load() expects a string" :=
  ⟨rfl, rfl⟩

/-- C4 (amended).  For every string (empty, non-HTML or malformed),
`parseJobHtml` and every adapter's parse function return an array and
never raise; `parseJobHtml` additionally returns `[]` for every falsy or
non-string input thanks to its runtime-type guard, and a document with
no recognizable structure yields the empty list.  (Only direct adapter
calls on non-strings raise, per the counterexample.) -/
theorem parse_functions_total_on_strings :
    (∀ (A : AdapterSet) (v : JSVal) (src : String),
      jsTruthy v = false ∨ isStringVal v = false →
        parseJobHtmlJS A v src = [])
    ∧ (∀ (docOf : String → LinkedInDoc) (s : String),
        ∃ jobs, parseLinkedInJS docOf (.str s) = .ok jobs)
    ∧ (∀ (docOf : String → IndeedDoc) (s : String),
        ∃ jobs, parseIndeedJS docOf (.str s) = .ok jobs)
    ∧ (∀ (docOf : String → OttaDoc) (s : String),
        ∃ jobs, parseOttaJS docOf (.str s) = .ok jobs)
    ∧ (∀ (docOf : String → GreenhouseDoc) (s : String),
        ∃ jobs, parseGreenhouseJS docOf (.str s) = .ok jobs)
    ∧ (∀ (docOf : String → LeverDoc) (s : String),
        ∃ jobs, parseLeverJS docOf (.str s) = .ok jobs)
    ∧ (∀ (docOf : String → LinkishDoc) (s : String),
        ∃ jobs, parseAshbyJS docOf (.str s) = .ok jobs)
    ∧ (∀ (docOf : String → LinkishDoc) (s : String),
        ∃ jobs, parseRipplingJS docOf (.str s) = .ok jobs)
    ∧ parseLinkedInDoc {} = [] ∧ parseIndeedDoc {} = []
    ∧ parseOttaDoc {} = [] ∧ parseGreenhouseDoc {} = []
    ∧ parseLeverDoc {} = [] ∧ parseAshbyDoc {} = []
    ∧ parseRipplingDoc {} = [] := by
  refine ⟨?_, fun _ _ => ⟨_, rfl⟩, fun _ _ => ⟨_, rfl⟩, fun _ _ => ⟨_, rfl⟩,
    fun _ _ => ⟨_, rfl⟩, fun _ _ => ⟨_, rfl⟩, fun _ _ => ⟨_, rfl⟩,
    fun _ _ => ⟨_, rfl⟩, rfl, rfl, rfl, rfl, rfl, rfl, rfl⟩
  intro A v src h
  cases v with
  | str s =>
    rcases h with h | h
    · have : s = "" := by
        by_contra hs
        simp [jsTruthy, hs] at h
      subst this
      rfl
    · simp [isStringVal] at h
  | jsNull => rfl
  | jsUndefined => rfl
  | num n => rfl
  | boolean b => rfl

/-- Witness for C4 (amended) at concrete inputs: the guard turns the
number 0 into `[]`, and the LinkedIn adapter returns an array on a plain
string. -/
theorem parse_functions_total_witness :
    parseJobHtmlJS emptyAdapterSet (JSVal.num 0) "auto" = []
    ∧ ∃ jobs, parseLinkedInJS (fun _ => {}) (.str "<p>hello</p>") = .ok jobs :=
  ⟨parse_functions_total_on_strings.1 emptyAdapterSet (JSVal.num 0) "auto"
      (Or.inl rfl),
   parse_functions_total_on_strings.2.1 (fun _ => {}) "<p>hello</p>"⟩

/-- C5 (counterexample).  The ingestion entrypoint rejects an empty
`rawHtml` (and every other falsy value, such as `null`) with the 400
client error `rawHtml is required` instead of succeeding with zero
parsed jobs: the route's first check is `if (!rawHtml) return 400`. -/
theorem ingest_empty_rawHtml_client_error :
    ingestRadar emptyAdapterSet [] [] (.str "") "auto"
      = (.clientError "rawHtml is required", [])
    ∧ ingestRadar emptyAdapterSet [] [] .jsNull "auto"
      = (.clientError "rawHtml is required", [])
    ∧ IngestResponse.clientError "rawHtml is required" ≠ .noJobs := by
  refine ⟨rfl, rfl, ?_⟩
  decide

/-- C5 (amended).  Falsy `rawHtml` (the empty string, `null`,
`undefined`, `0`, `false`) is rejected with the 400 client error
`rawHtml is required`; a *truthy* non-string `rawHtml` passes the guard,
parses to zero jobs via the type check inside `parseJobHtml`, and
succeeds with stats `{parsed: 0, new: 0, duplicates: 0}`. -/
theorem ingest_falsy_and_nonstring (A : AdapterSet)
    (zones : List RadarZone) (db : List String) (src : String)
    (v : JSVal) :
    (jsTruthy v = false →
      ingestRadar A zones db v src = (.clientError "rawHtml is required", db))
    ∧ (jsTruthy v = true → isStringVal v = false →
      ingestRadar A zones db v src = (.noJobs, db)) := by
  constructor
  · intro h
    unfold ingestRadar
    rw [h]
    rfl
  · intro ht hs
    unfold ingestRadar
    rw [ht]
    have hz : parseJobHtmlJS A v src = [] := by
      cases v with
      | str s => simp [isStringVal] at hs
      | jsNull => rfl
      | jsUndefined => rfl
      | num n => rfl
      | boolean b => rfl
    simp [hz]

/-- Witness for C5 (amended): the number 1 is truthy and non-string, so
ingesting it succeeds with the zero-stats response; `false` is falsy and
is rejected. -/
theorem ingest_falsy_and_nonstring_witness :
    ingestRadar emptyAdapterSet [] [] (JSVal.num 1) "auto" = (.noJobs, [])
    ∧ ingestRadar emptyAdapterSet [] [] (JSVal.boolean false) "auto"
      = (.clientError "rawHtml is required", []) :=
  ⟨(ingest_falsy_and_nonstring emptyAdapterSet [] [] "auto"
      (JSVal.num 1)).2 rfl rfl,
   (ingest_falsy_and_nonstring emptyAdapterSet [] [] "auto"
      (JSVal.boolean false)).1 rfl⟩

/-- C6 (counterexample).  A zone with a search title but no search
location is skipped entirely by the sweep - in an environment whose
fetches and parses always yield a job, it still contributes 0 to
`processed` and `new` - while the claim says every active zone with at
least one of the two fields non-empty is processed.  The same zone with
a location is processed (2 sources iterated, 2 new leads). -/
theorem sweep_skips_zone_missing_location :
    zoneTitleOnly.active = true
    ∧ zoneTitleOnly.searchTitle ≠ ""
    ∧ performDiscoverySweep sweepEnvC [zoneTitleOnly] []
        = (⟨0, 0⟩, [])
    ∧ performDiscoverySweep sweepEnvC
        [{ zoneTitleOnly with searchLocation := "London" }] []
        = (⟨2, 2⟩, ["https://jobs.example/b", "https://jobs.example/a"]) := by
  refine ⟨rfl, by decide, rfl, ?_⟩
  decide

/-- C6 (amended).  During a sweep a zone is skipped exactly when it
lacks *at least one* of search title and search location (the guard is
`if (!zone.searchTitle || !zone.searchLocation) continue`): such a zone
triggers no fetch and leaves the counters and the store untouched, a
zone with both fields non-empty has its generated search tasks
(LinkedIn and Indeed) iterated, and an inactive zone is not part of the
sweep at all. -/
theorem sweep_zone_skip_iff :
    (∀ (env : SweepEnv) (snap : List RadarZone)
        (st : List String × Nat × Nat) (z : RadarZone)
        (zs : List RadarZone),
      z.searchTitle = "" ∨ z.searchLocation = "" →
        sweepLoop env snap (z :: zs) st = sweepLoop env snap zs st)
    ∧ (∀ (env : SweepEnv) (snap : List RadarZone)
        (st : List String × Nat × Nat) (z : RadarZone)
        (zs : List RadarZone),
      z.searchTitle ≠ "" → z.searchLocation ≠ "" →
        sweepLoop env snap (z :: zs) st =
          sweepLoop env snap zs
            ((generateSearchUrls z.searchTitle z.searchLocation).foldl
              (processTask env snap) st))
    ∧ (∀ (env : SweepEnv) (z : RadarZone) (zs : List RadarZone)
        (db : List String),
      z.active = false →
        performDiscoverySweep env (z :: zs) db
          = performDiscoverySweep env zs db) := by
  refine ⟨?_, ?_, ?_⟩
  · intro env snap st z zs h
    unfold sweepLoop
    rw [List.foldl_cons]
    unfold processZone
    rw [if_pos h]
  · intro env snap st z zs h1 h2
    unfold sweepLoop
    rw [List.foldl_cons]
    unfold processZone
    rw [if_neg (by push_neg; exact ⟨h1, h2⟩)]
  · intro env z zs db h
    unfold performDiscoverySweep
    rw [List.filter_cons_of_neg (by simp [h])]

/-- Witness for C6 (amended) at concrete inputs: the location-less zone
leaves the sweep state untouched, and with both fields filled the two
search tasks run. -/
theorem sweep_zone_skip_iff_witness :
    sweepLoop sweepEnvC [zoneTitleOnly] [zoneTitleOnly] ([], 0, 0)
      = sweepLoop sweepEnvC [zoneTitleOnly] [] ([], 0, 0)
    ∧ sweepLoop sweepEnvC [] [{ zoneTitleOnly with searchLocation := "L" }]
        ([], 0, 0)
      = sweepLoop sweepEnvC [] []
          ((generateSearchUrls "developer" "L").foldl
            (processTask sweepEnvC []) ([], 0, 0))
    ∧ performDiscoverySweep sweepEnvC [{ zoneTitleOnly with active := false }]
        [] = performDiscoverySweep sweepEnvC [] [] :=
  ⟨sweep_zone_skip_iff.1 sweepEnvC [zoneTitleOnly] ([], 0, 0) zoneTitleOnly
      [] (Or.inr rfl),
   sweep_zone_skip_iff.2.1 sweepEnvC [] ([], 0, 0)
      { zoneTitleOnly with searchLocation := "L" } [] (by decide) (by decide),
   sweep_zone_skip_iff.2.2 sweepEnvC { zoneTitleOnly with active := false }
      [] [] rfl⟩

/-! ## Claim theorems: detection and deduplication -/

/-- C8.  `detectSource` lower-cases the document and tests the fixed
ordered precedence list (LinkedIn, Indeed, Otta, Greenhouse, Lever,
Ashby, Rippling), returning the first source one of whose identifying
substrings occurs in the lower-cased document, else `"auto"`; in
particular a document containing an Indeed-identifying substring and a
Greenhouse-identifying substring but no LinkedIn-identifying substring
is detected as Indeed. -/
theorem detectSource_first_match :
    (∀ html : String, detectSource html = detectSourceSpec html)
    ∧ ∀ html : String,
        (jsIncludes (jsToLower html) "indeed.com" = true
          ∨ jsIncludes (jsToLower html) "jobsearch-resultsList" = true) →
        jsIncludes (jsToLower html) "greenhouse" = true →
        jsIncludes (jsToLower html) "linkedin.com" = false →
        jsIncludes (jsToLower html) "job-card-container" = false →
        detectSource html = "Indeed" := by
  constructor
  · intro html
    unfold detectSource detectSourceSpec detectSourcePrecedence
    dsimp only
    simp only [List.find?_cons, List.any_cons, List.any_nil, Bool.or_false]
    cases h1 : (jsIncludes (jsToLower html) "linkedin.com"
        || jsIncludes (jsToLower html) "job-card-container") with
    | true => simp [h1]
    | false =>
    cases h2 : (jsIncludes (jsToLower html) "indeed.com"
        || jsIncludes (jsToLower html) "jobsearch-resultsList") with
    | true => simp [h1, h2]
    | false =>
    cases h3 : (jsIncludes (jsToLower html) "otta.com"
        || jsIncludes (jsToLower html) "otta") with
    | true => simp [h1, h2, h3]
    | false =>
    cases h4 : (jsIncludes (jsToLower html) "boards.greenhouse.io"
        || jsIncludes (jsToLower html) "greenhouse") with
    | true => simp [h1, h2, h3, h4]
    | false =>
    cases h5 : (jsIncludes (jsToLower html) "jobs.lever.co"
        || jsIncludes (jsToLower html) "lever.co") with
    | true => simp [h1, h2, h3, h4, h5]
    | false =>
    cases h6 : (jsIncludes (jsToLower html) "jobs.ashbyhq.com"
        || jsIncludes (jsToLower html) "ashbyhq") with
    | true => simp [h1, h2, h3, h4, h5, h6]
    | false =>
    cases h7 : (jsIncludes (jsToLower html) "ats.rippling.com"
        || jsIncludes (jsToLower html) "rippling.com") with
    | true => simp [h1, h2, h3, h4, h5, h6, h7]
    | false => simp [h1, h2, h3, h4, h5, h6, h7]
  · intro html hin _hgh hli1 hli2
    unfold detectSource
    dsimp only
    rw [if_neg (by simp [hli1, hli2])]
    rw [if_pos (by rcases hin with h | h <;> simp [h])]

/-- Witness for C8 at a concrete fixture containing both an
Indeed-identifying and a Greenhouse-identifying substring: Indeed wins
per the precedence order. -/
theorem detectSource_first_match_witness :
    detectSource "<div>Indeed.com results ... greenhouse board</div>"
      = "Indeed" :=
  detectSource_first_match.2
    "<div>Indeed.com results ... greenhouse board</div>"
    (Or.inl (by decide)) (by decide) (by decide) (by decide)

theorem dedup_output_clean (raw : List Job) :
    ((deduplicateJobs raw).map (·.jobUrl)).Nodup
    ∧ ∀ p ∈ deduplicateJobs raw, p.jobUrl ≠ "" :=
  ⟨dedupGo_nodup [] raw, fun p hp => (dedupGo_mem_props [] raw p hp).1⟩

theorem parseLinkedInDoc_dedup (d : LinkedInDoc) :
    ∃ raw, parseLinkedInDoc d = deduplicateJobs raw := by
  unfold parseLinkedInDoc
  dsimp only
  split
  · exact ⟨_, rfl⟩
  · exact ⟨_, rfl⟩

theorem parseIndeedDoc_dedup (d : IndeedDoc) :
    ∃ raw, parseIndeedDoc d = deduplicateJobs raw := ⟨_, rfl⟩

theorem parseOttaDoc_dedup (d : OttaDoc) :
    ∃ raw, parseOttaDoc d = deduplicateJobs raw := by
  unfold parseOttaDoc
  dsimp only
  split
  · exact ⟨_, rfl⟩
  · exact ⟨_, rfl⟩

theorem parseGreenhouseDoc_dedup (d : GreenhouseDoc) :
    ∃ raw, parseGreenhouseDoc d = deduplicateJobs raw := by
  unfold parseGreenhouseDoc
  dsimp only
  split
  · exact ⟨_, rfl⟩
  · exact ⟨_, rfl⟩

theorem parseLeverDoc_dedup (d : LeverDoc) :
    ∃ raw, parseLeverDoc d = deduplicateJobs raw := by
  unfold parseLeverDoc
  dsimp only
  split
  · exact ⟨_, rfl⟩
  · exact ⟨_, rfl⟩

theorem parseLinkishDoc_dedup (domain label src : String)
    (d : LinkishDoc) :
    ∃ raw, parseLinkishDoc domain label src d = deduplicateJobs raw := by
  unfold parseLinkishDoc
  dsimp only
  split
  · exact ⟨_, rfl⟩
  · exact ⟨_, rfl⟩

/-- The dedup invariant holds of anything of the form
`deduplicateJobs raw`. -/
theorem dedup_invariant_of_eq {out : List Job}
    (h : ∃ raw, out = deduplicateJobs raw) :
    (out.map (·.jobUrl)).Nodup ∧ ∀ p ∈ out, p.jobUrl ≠ "" := by
  rcases h with ⟨raw, rfl⟩
  exact dedup_output_clean raw

/-- C3.  `deduplicate` returns a sublist of its input in the original
order whose postings all carry a non-empty `jobUrl`, with pairwise
distinct `jobUrl`s; every kept posting is exactly the *first* posting of
the input carrying its url, and every non-empty url occurring in the
input is represented.  Consequently (every adapter ends in
`deduplicateJobs`) no two postings of any adapter's output share a
`jobUrl`, and no adapter output contains an empty `jobUrl`. -/
theorem deduplicate_keeps_first_occurrence :
    (∀ jobs : List Job,
      (deduplicateJobs jobs).Sublist jobs
      ∧ (∀ p ∈ deduplicateJobs jobs, p.jobUrl ≠ "")
      ∧ ((deduplicateJobs jobs).map (·.jobUrl)).Nodup
      ∧ (∀ p ∈ deduplicateJobs jobs,
          jobs.find? (fun j => j.jobUrl == p.jobUrl) = some p)
      ∧ ∀ u : String, u ≠ "" → (∃ j ∈ jobs, j.jobUrl = u) →
          ∃ p ∈ deduplicateJobs jobs, p.jobUrl = u)
    ∧ (∀ d : LinkedInDoc, ((parseLinkedInDoc d).map (·.jobUrl)).Nodup
        ∧ ∀ p ∈ parseLinkedInDoc d, p.jobUrl ≠ "")
    ∧ (∀ d : IndeedDoc, ((parseIndeedDoc d).map (·.jobUrl)).Nodup
        ∧ ∀ p ∈ parseIndeedDoc d, p.jobUrl ≠ "")
    ∧ (∀ d : OttaDoc, ((parseOttaDoc d).map (·.jobUrl)).Nodup
        ∧ ∀ p ∈ parseOttaDoc d, p.jobUrl ≠ "")
    ∧ (∀ d : GreenhouseDoc, ((parseGreenhouseDoc d).map (·.jobUrl)).Nodup
        ∧ ∀ p ∈ parseGreenhouseDoc d, p.jobUrl ≠ "")
    ∧ (∀ d : LeverDoc, ((parseLeverDoc d).map (·.jobUrl)).Nodup
        ∧ ∀ p ∈ parseLeverDoc d, p.jobUrl ≠ "")
    ∧ (∀ d : LinkishDoc, ((parseAshbyDoc d).map (·.jobUrl)).Nodup
        ∧ ∀ p ∈ parseAshbyDoc d, p.jobUrl ≠ "")
    ∧ (∀ d : LinkishDoc, ((parseRipplingDoc d).map (·.jobUrl)).Nodup
        ∧ ∀ p ∈ parseRipplingDoc d, p.jobUrl ≠ "")
    ∧ (∀ jf org, ((parseGreenhouseApi jf org).map (·.jobUrl)).Nodup
        ∧ ∀ p ∈ parseGreenhouseApi jf org, p.jobUrl ≠ "")
    ∧ (∀ js org, ((parseLeverApi js org).map (·.jobUrl)).Nodup
        ∧ ∀ p ∈ parseLeverApi js org, p.jobUrl ≠ "")
    ∧ (∀ jf org, ((parseAshbyApi jf org).map (·.jobUrl)).Nodup
        ∧ ∀ p ∈ parseAshbyApi jf org, p.jobUrl ≠ "")
    ∧ (∀ es org, ((parseRipplingApi es org).map (·.jobUrl)).Nodup
        ∧ ∀ p ∈ parseRipplingApi es org, p.jobUrl ≠ "") := by
  refine ⟨?_, ?_, ?_, ?_, ?_, ?_, ?_, ?_, ?_, ?_, ?_, ?_⟩
  · intro jobs
    exact ⟨dedupGo_sublist [] jobs,
      fun p hp => (dedupGo_mem_props [] jobs p hp).1,
      dedupGo_nodup [] jobs,
      fun p hp => dedupGo_first [] jobs p hp,
      fun u hu hex => dedupGo_complete [] jobs u hu (by simp) hex⟩
  · exact fun d => dedup_invariant_of_eq (parseLinkedInDoc_dedup d)
  · exact fun d => dedup_invariant_of_eq (parseIndeedDoc_dedup d)
  · exact fun d => dedup_invariant_of_eq (parseOttaDoc_dedup d)
  · exact fun d => dedup_invariant_of_eq (parseGreenhouseDoc_dedup d)
  · exact fun d => dedup_invariant_of_eq (parseLeverDoc_dedup d)
  · exact fun d => dedup_invariant_of_eq (parseLinkishDoc_dedup _ _ _ d)
  · exact fun d => dedup_invariant_of_eq (parseLinkishDoc_dedup _ _ _ d)
  · exact fun jf org => dedup_invariant_of_eq ⟨_, rfl⟩
  · exact fun js org => dedup_invariant_of_eq ⟨_, rfl⟩
  · exact fun jf org => dedup_invariant_of_eq ⟨_, rfl⟩
  · exact fun es org => dedup_invariant_of_eq ⟨_, rfl⟩

/-- Witness for C3 at a concrete list with a duplicate url and an empty
url: the kept posting is the first occurrence, and the shared url is
represented exactly once. -/
theorem deduplicate_keeps_first_occurrence_witness :
    ([dupJobX, dupJobE, dupJobX2].find?
        (fun j => j.jobUrl == dupJobX.jobUrl) = some dupJobX)
    ∧ (∃ p ∈ deduplicateJobs [dupJobX, dupJobE, dupJobX2],
        p.jobUrl = "https://jobs.example/x") :=
  ⟨(deduplicate_keeps_first_occurrence.1
      [dupJobX, dupJobE, dupJobX2]).2.2.2.1 dupJobX (by decide),
   (deduplicate_keeps_first_occurrence.1
      [dupJobX, dupJobE, dupJobX2]).2.2.2.2 "https://jobs.example/x"
      (by decide) ⟨dupJobX, by decide, rfl⟩⟩

/-! ## Claim theorems: description length (C7) -/

theorem collapseWs_length_le : ∀ l : List Char,
    (collapseWs l).length ≤ l.length := by
  intro l
  induction l with
  | nil => simp [collapseWs]
  | cons c1 rest ih =>
    cases rest with
    | nil =>
      by_cases h : isJsWhitespace c1 <;> simp [collapseWs, h]
    | cons c2 r2 =>
      by_cases h1 : isJsWhitespace c1 <;> by_cases h2 : isJsWhitespace c2 <;>
        simp only [collapseWs, h1, h2, if_true, if_false, List.length_cons] <;>
        simp_all <;> omega

theorem jsTrimL_length_le (l : List Char) :
    (jsTrimL l).length ≤ l.length := by
  unfold jsTrimL
  calc ((((l.dropWhile isJsWhitespace).reverse).dropWhile
          isJsWhitespace).reverse).length
      = (((l.dropWhile isJsWhitespace).reverse).dropWhile
          isJsWhitespace).length := by rw [List.length_reverse]
    _ ≤ ((l.dropWhile isJsWhitespace).reverse).length :=
        (List.dropWhile_sublist _).length_le
    _ = (l.dropWhile isJsWhitespace).length := by rw [List.length_reverse]
    _ ≤ l.length := (List.dropWhile_sublist _).length_le

theorem cleanText_length_le (s : String) : jsLen (cleanText s) ≤ jsLen s := by
  unfold cleanText
  split
  · simp [jsLen]
  · calc jsLen (String.mk (jsTrimL (replaceNRT (collapseWs s.toList))))
        = (jsTrimL (replaceNRT (collapseWs s.toList))).length := rfl
      _ ≤ (replaceNRT (collapseWs s.toList)).length := jsTrimL_length_le _
      _ = (collapseWs s.toList).length := by simp [replaceNRT]
      _ ≤ s.toList.length := collapseWs_length_le _
      _ = jsLen s := rfl

theorem jsSubstring_length_le (s : String) (n : Nat) :
    jsLen (jsSubstring s n) ≤ n := by
  simp [jsLen, jsSubstring]

theorem extractLinkedInCard_desc_le (c : LinkedInCard) :
    jsLen (extractLinkedInCard c).description ≤ 500 := by
  unfold extractLinkedInCard
  exact le_trans (cleanText_length_le _) (jsSubstring_length_le _ 500)

theorem extractLinkedInLink_desc_le (v : LinkLike) :
    jsLen (extractLinkedInLink v).description ≤ 500 := by
  unfold extractLinkedInLink
  exact le_trans (jsSubstring_length_le _ 200) (by omega)

theorem extractIndeedCard_desc_le (c : IndeedCard) :
    jsLen (extractIndeedCard c).description ≤ 500 := by
  unfold extractIndeedCard
  exact le_trans (cleanText_length_le _) (jsSubstring_length_le _ 500)

theorem greenhouseApiJob_desc_le (org : String)
    (e : GreenhouseApiEntry) :
    jsLen (greenhouseApiJob org e).description ≤ 500 := by
  unfold greenhouseApiJob
  exact jsSubstring_length_le _ 500

/-- Members of a deduplicated map-filter pipeline come from the map. -/
theorem mem_dedup_map_filter {α : Type} (f : α → Job)
    (pred : Job → Bool) (l : List α) (p : Job)
    (hp : p ∈ deduplicateJobs ((l.map f).filter pred)) :
    ∃ a ∈ l, p = f a := by
  have hp' := (dedupGo_sublist [] _).subset hp
  rcases List.mem_filter.1 hp' with ⟨hm, _⟩
  rcases List.mem_map.1 hm with ⟨a, ha, rfl⟩
  exact ⟨a, ha, rfl⟩

theorem mem_parseLinkedInDoc (d : LinkedInDoc) (p : Job)
    (hp : p ∈ parseLinkedInDoc d) :
    (∃ c, p = extractLinkedInCard c) ∨ ∃ v, p = extractLinkedInLink v := by
  unfold parseLinkedInDoc at hp
  dsimp only at hp
  split at hp
  · rcases mem_dedup_map_filter _ _ _ _ hp with ⟨v, _, rfl⟩
    exact Or.inr ⟨v, rfl⟩
  · rcases mem_dedup_map_filter _ _ _ _ hp with ⟨c, _, rfl⟩
    exact Or.inl ⟨c, rfl⟩

theorem mem_parseIndeedDoc (d : IndeedDoc) (p : Job)
    (hp : p ∈ parseIndeedDoc d) : ∃ c, p = extractIndeedCard c := by
  unfold parseIndeedDoc at hp
  rcases mem_dedup_map_filter _ _ _ _ hp with ⟨c, _, rfl⟩
  exact ⟨c, rfl⟩

theorem mem_parseGreenhouseDoc (d : GreenhouseDoc) (p : Job)
    (hp : p ∈ parseGreenhouseDoc d) :
    (∃ c, p = extractGreenhouseCard c)
      ∨ ∃ v, p = extractGreenhouseLink v := by
  unfold parseGreenhouseDoc at hp
  dsimp only at hp
  split at hp
  · rcases mem_dedup_map_filter _ _ _ _ hp with ⟨v, _, rfl⟩
    exact Or.inr ⟨v, rfl⟩
  · rcases mem_dedup_map_filter _ _ _ _ hp with ⟨c, _, rfl⟩
    exact Or.inl ⟨c, rfl⟩

theorem mem_parseGreenhouseApi (jf : Option (List GreenhouseApiEntry))
    (org : String) (p : Job) (hp : p ∈ parseGreenhouseApi jf org) :
    ∃ e, p = greenhouseApiJob org e := by
  unfold parseGreenhouseApi at hp
  rcases mem_dedup_map_filter _ _ _ _ hp with ⟨e, _, rfl⟩
  exact ⟨e, rfl⟩

/-- C7 (amended).  The adapters that truncate - LinkedIn and Indeed
(HTML) and Greenhouse (HTML and API) - produce descriptions of at most
500 characters; the Ashby, Lever, Rippling and Otta adapters build
their team/department/skills descriptions without truncation, so the
invariant does not hold for them (see the counterexample). -/
theorem truncating_adapters_desc_le_500 :
    (∀ (d : LinkedInDoc) (p : Job), p ∈ parseLinkedInDoc d →
        jsLen p.description ≤ 500)
    ∧ (∀ (d : IndeedDoc) (p : Job), p ∈ parseIndeedDoc d →
        jsLen p.description ≤ 500)
    ∧ (∀ (d : GreenhouseDoc) (p : Job), p ∈ parseGreenhouseDoc d →
        jsLen p.description ≤ 500)
    ∧ (∀ (jf : Option (List GreenhouseApiEntry)) (org : String)
        (p : Job), p ∈ parseGreenhouseApi jf org →
        jsLen p.description ≤ 500) := by
  refine ⟨?_, ?_, ?_, ?_⟩
  · intro d p hp
    rcases mem_parseLinkedInDoc d p hp with ⟨c, rfl⟩ | ⟨v, rfl⟩
    · exact extractLinkedInCard_desc_le c
    · exact extractLinkedInLink_desc_le v
  · intro d p hp
    rcases mem_parseIndeedDoc d p hp with ⟨c, rfl⟩
    exact extractIndeedCard_desc_le c
  · intro d p hp
    rcases mem_parseGreenhouseDoc d p hp with ⟨c, rfl⟩ | ⟨v, rfl⟩
    · unfold extractGreenhouseCard
      simp [jsLen]
    · unfold extractGreenhouseLink
      simp [jsLen]
  · intro jf org p hp
    rcases mem_parseGreenhouseApi jf org p hp with ⟨e, rfl⟩
    exact greenhouseApiJob_desc_le org e

/-- Witness for C7 (amended): a Greenhouse API entry whose stripped
content is long still comes out at no more than 500 characters. -/
theorem truncating_adapters_desc_le_500_witness :
    ∀ p ∈ parseGreenhouseApi
        (some [{ title := some "Engineer",
                 content := some "hello world" }]) "acme",
      jsLen p.description ≤ 500 :=
  fun p hp => truncating_adapters_desc_le_500.2.2.2
    (some [{ title := some "Engineer", content := some "hello world" }])
    "acme" p hp

/-! Counterexample for C7: the Ashby API path never truncates. -/

theorem collapseWs_of_no_ws : ∀ l : List Char,
    (∀ c ∈ l, isJsWhitespace c = false) → collapseWs l = l := by
  intro l
  induction l with
  | nil => simp [collapseWs]
  | cons c1 rest ih =>
    intro h
    cases rest with
    | nil => simp [collapseWs, h c1 (by simp)]
    | cons c2 r2 =>
      have h1 := h c1 (by simp)
      rw [collapseWs, if_neg (by simp [h1])]
      rw [ih (fun c hc => h c (List.mem_cons_of_mem _ hc))]

theorem replaceNRT_keep (c : Char) (h : isJsWhitespace c = false) :
    (if c = '\n' || c = '\r' || c = '\t' then ' ' else c) = c := by
  rw [if_neg]
  intro hc
  simp only [Bool.or_eq_true, decide_eq_true_eq] at hc
  rcases hc with (rfl | rfl) | rfl <;> exact absurd h (by decide)

theorem replaceNRT_of_no_ws (l : List Char)
    (h : ∀ c ∈ l, isJsWhitespace c = false) : replaceNRT l = l := by
  induction l with
  | nil => rfl
  | cons c rest ih =>
    show (if c = '\n' || c = '\r' || c = '\t' then ' ' else c)
        :: replaceNRT rest = c :: rest
    rw [replaceNRT_keep c (h c (by simp)),
      ih (fun x hx => h x (List.mem_cons_of_mem _ hx))]

theorem dropWhile_of_no_ws (l : List Char)
    (h : ∀ c ∈ l, isJsWhitespace c = false) :
    l.dropWhile isJsWhitespace = l := by
  cases l with
  | nil => rfl
  | cons c rest => rw [List.dropWhile_cons_of_neg (by simp [h c (by simp)])]

theorem jsTrimL_of_no_ws (l : List Char)
    (h : ∀ c ∈ l, isJsWhitespace c = false) : jsTrimL l = l := by
  unfold jsTrimL
  rw [dropWhile_of_no_ws l h,
    dropWhile_of_no_ws l.reverse (fun c hc => h c (List.mem_reverse.1 hc)),
    List.reverse_reverse]

theorem cleanText_of_no_ws (s : String)
    (h : ∀ c ∈ s.toList, isJsWhitespace c = false) : cleanText s = s := by
  unfold cleanText
  split
  · next heq => exact heq.symm
  · rw [collapseWs_of_no_ws _ h, replaceNRT_of_no_ws _ h,
      jsTrimL_of_no_ws _ h]
    cases s
    rfl

/-- C7 (counterexample).  The Ashby API adapter builds
`description = "Team: " + departmentName` with no truncation: a
600-character department name yields a posting whose description is 606
characters long, violating the claimed 500-character invariant. -/
theorem ashby_api_description_unbounded :
    ((parseAshbyApi (some [ashbyLongEntry]) "acme").map
      (fun j => jsLen j.description)) = [606] ∧ 500 < 606 := by
  have hteamchars : ∀ c ∈ longTeam.toList, isJsWhitespace c = false := by
    intro c hc
    have hc' : c = 'a' := by
      simpa [longTeam] using List.eq_of_mem_replicate hc
    subst hc'
    decide
  have hclean : cleanText longTeam = longTeam := cleanText_of_no_ws _ hteamchars
  have hlongne : ¬(longTeam = "") := by decide
  have hjor : jsOr (some longTeam) (jsOr none "") = longTeam := by
    simp [jsOr, hlongne]
  have hbne : (longTeam != "") = true := by
    simp [bne, hlongne]
  have hjob : ashbyApiJob "acme" ashbyLongEntry =
      { title := "Engineer", companyName := "acme", location := "",
        jobUrl := "https://jobs.ashbyhq.com/acme/1",
        description := "Team: " ++ longTeam, salaryText := "",
        source := "Ashby" } := by
    unfold ashbyApiJob ashbyLongEntry
    dsimp only
    rw [hjor, hclean]
    rw [if_pos hbne]
    have htitle : cleanText "Engineer" = "Engineer" := by decide
    have hloc : cleanText (jsOr none (jsOr none "")) = "" := by decide
    have hurl : jsOr (some "https://jobs.ashbyhq.com/acme/1")
        (jsOr none ("https://jobs.ashbyhq.com/" ++ "acme" ++ "/"
          ++ jsTemplate none)) = "https://jobs.ashbyhq.com/acme/1" := by
      decide
    rw [Option.getD_some, htitle, hloc, hurl]
    show Job.mk "Engineer" "acme" "" "https://jobs.ashbyhq.com/acme/1"
        (joinSep " | " (["Team: " ++ longTeam] ++ [])) "" "Ashby" = _
    rw [List.append_nil]
    rfl
  constructor
  · unfold parseAshbyApi
    rw [show (some [ashbyLongEntry]).getD [] = [ashbyLongEntry] from rfl]
    rw [List.map_cons, List.map_nil, hjob]
    rw [List.filter_cons_of_pos (by decide), List.filter_nil]
    unfold deduplicateJobs dedupGo
    rw [if_neg (by decide)]
    show [jsLen ("Team: " ++ longTeam)] = [606]
    have hsplit : ("Team: " ++ longTeam).toList
        = "Team: ".toList ++ longTeam.toList := by
      cases longTeam
      rfl
    rw [show jsLen ("Team: " ++ longTeam)
        = ("Team: " ++ longTeam).toList.length from rfl, hsplit,
      List.length_append]
    rw [show longTeam.toList = List.replicate 600 'a' from rfl,
      List.length_replicate]
    rfl
  · omega

/-! ## URL normalizer lemmas (C9) -/

theorem stripPre?_some : ∀ (p l r : List Char),
    stripPre? p l = some r → l = p ++ r := by
  intro p
  induction p with
  | nil =>
    intro l r h
    simp [stripPre?] at h
    simp [h]
  | cons x xs ih =>
    intro l r h
    cases l with
    | nil => simp [stripPre?] at h
    | cons c cs =>
      unfold stripPre? at h
      split at h
      · next heq =>
        subst heq
        rw [ih cs r h]
        rfl
      · cases h

theorem stripPre?_append : ∀ (p r : List Char),
    stripPre? p (p ++ r) = some r := by
  intro p
  induction p with
  | nil => intro r; rfl
  | cons x xs ih =>
    intro r
    show stripPre? (x :: xs) (x :: (xs ++ r)) = some r
    unfold stripPre?
    rw [if_pos rfl]
    exact ih r

theorem matchLinkedInAt_shape (l m : List Char)
    (h : matchLinkedInAt l = some m) :
    LinkedInShape m ∧ ∃ rest, l = m ++ rest := by
  unfold matchLinkedInAt at h
  cases h1 : stripPre? "https://".toList l with
  | none => rw [h1] at h; cases h
  | some r1 =>
  rw [h1] at h
  dsimp only at h
  cases h2 : stripPre? "www.".toList r1 with
  | some r =>
    rw [h2] at h
    try dsimp only at h
    cases h3 : stripPre? "linkedin.com/jobs/view/".toList r with
    | none => rw [h3] at h; cases h
    | some r3 =>
      rw [h3] at h
      try dsimp only at h
      by_cases hds : (r3.takeWhile Char.isDigit).isEmpty
      · rw [if_pos hds] at h; cases h
      · rw [if_neg hds] at h
        injection h with h
        subst h
        refine ⟨⟨"www.".toList, r3.takeWhile Char.isDigit,
          Or.inr rfl, by simpa [List.isEmpty_iff] using hds,
          fun c hc => List.mem_takeWhile_imp hc, rfl⟩, ?_⟩
        refine ⟨r3.dropWhile Char.isDigit, ?_⟩
        rw [stripPre?_some _ _ _ h1, stripPre?_some _ _ _ h2,
          stripPre?_some _ _ _ h3]
        simp [List.takeWhile_append_dropWhile]
  | none =>
    rw [h2] at h
    try dsimp only at h
    cases h3 : stripPre? "linkedin.com/jobs/view/".toList r1 with
    | none => rw [h3] at h; cases h
    | some r3 =>
      rw [h3] at h
      try dsimp only at h
      by_cases hds : (r3.takeWhile Char.isDigit).isEmpty
      · rw [if_pos hds] at h; cases h
      · rw [if_neg hds] at h
        injection h with h
        subst h
        refine ⟨⟨[], r3.takeWhile Char.isDigit,
          Or.inl rfl, by simpa [List.isEmpty_iff] using hds,
          fun c hc => List.mem_takeWhile_imp hc, rfl⟩, ?_⟩
        refine ⟨r3.dropWhile Char.isDigit, ?_⟩
        rw [stripPre?_some _ _ _ h1, stripPre?_some _ _ _ h3]
        simp [List.takeWhile_append_dropWhile]

theorem takeWhile_digits_of_digits (ds : List Char)
    (hdig : ∀ c ∈ ds, c.isDigit = true) :
    ds.takeWhile Char.isDigit = ds :=
  List.takeWhile_eq_self_iff.2 hdig

theorem matchLinkedInAt_self (m : List Char) (hs : LinkedInShape m) :
    matchLinkedInAt m = some m := by
  obtain ⟨w, ds, hw, hds, hdig, rfl⟩ := hs
  unfold matchLinkedInAt
  rcases hw with rfl | rfl
  · rw [List.append_nil]
    rw [show ("https://".toList ++ "linkedin.com/jobs/view/".toList ++ ds)
        = "https://".toList ++ ("linkedin.com/jobs/view/".toList ++ ds) from by
      simp]
    rw [stripPre?_append]
    dsimp only
    rw [show stripPre? "www.".toList ("linkedin.com/jobs/view/".toList ++ ds)
        = none from rfl]
    dsimp only
    rw [stripPre?_append]
    dsimp only
    rw [takeWhile_digits_of_digits ds hdig]
    rw [if_neg (by simpa [List.isEmpty_iff] using hds)]
    simp
  · rw [show ("https://".toList ++ "www.".toList
          ++ "linkedin.com/jobs/view/".toList ++ ds)
        = "https://".toList ++ ("www.".toList
          ++ ("linkedin.com/jobs/view/".toList ++ ds)) from by simp]
    rw [stripPre?_append]
    dsimp only
    rw [stripPre?_append]
    dsimp only
    rw [stripPre?_append]
    dsimp only
    rw [takeWhile_digits_of_digits ds hdig]
    rw [if_neg (by simpa [List.isEmpty_iff] using hds)]
    simp

theorem findLinkedInMatch_shape : ∀ (l m : List Char),
    findLinkedInMatch l = some m → LinkedInShape m := by
  intro l
  induction l with
  | nil => intro m h; cases h
  | cons c rest ih =>
    intro m h
    unfold findLinkedInMatch at h
    cases hat : matchLinkedInAt (c :: rest) with
    | some m0 =>
      rw [hat] at h
      injection h with h
      subst h
      exact (matchLinkedInAt_shape _ _ hat).1
    | none =>
      rw [hat] at h
      exact ih m h

theorem matchLinkedInAt_extend (l ext m : List Char)
    (h : matchLinkedInAt l = some m) :
    ∃ m2, matchLinkedInAt (l ++ ext) = some m2 := by
  unfold matchLinkedInAt at h ⊢
  cases h1 : stripPre? "https://".toList l with
  | none => rw [h1] at h; cases h
  | some r1 =>
  rw [h1] at h
  dsimp only at h
  rw [stripPre?_some _ _ _ h1, List.append_assoc, stripPre?_append]
  dsimp only
  cases h2 : stripPre? "www.".toList r1 with
  | some r =>
    rw [h2] at h
    try dsimp only at h
    rw [stripPre?_some _ _ _ h2, List.append_assoc, stripPre?_append]
    cases h3 : stripPre? "linkedin.com/jobs/view/".toList r with
    | none => rw [h3] at h; cases h
    | some r3 =>
      rw [h3] at h
      try dsimp only at h
      rw [stripPre?_some _ _ _ h3, List.append_assoc, stripPre?_append]
      by_cases hds : (r3.takeWhile Char.isDigit).isEmpty
      · rw [if_pos hds] at h; cases h
      · cases hr3 : r3 with
        | nil => rw [hr3] at hds; simp at hds
        | cons d ds' =>
          rw [hr3] at hds
          have hd : d.isDigit = true := by
            by_contra hdn
            rw [List.takeWhile_cons_of_neg (by simpa using hdn)] at hds
            simp at hds
          try dsimp only
          rw [List.cons_append] 
          try dsimp only
          rw [List.takeWhile_cons_of_pos hd]
          rw [if_neg (by simp)]
          exact ⟨_, rfl⟩
  | none =>
    rw [h2] at h
    try dsimp only at h
    cases h3 : stripPre? "linkedin.com/jobs/view/".toList r1 with
    | none => rw [h3] at h; cases h
    | some r3 =>
      rw [h3] at h
      try dsimp only at h
      have hr1 : r1 = "linkedin.com/jobs/view/".toList ++ r3 :=
        stripPre?_some _ _ _ h3
      rw [hr1]
      rw [show stripPre? "www.".toList
          (("linkedin.com/jobs/view/".toList ++ r3) ++ ext) = none from rfl]
      rw [List.append_assoc, stripPre?_append]
      by_cases hds : (r3.takeWhile Char.isDigit).isEmpty
      · rw [if_pos hds] at h; cases h
      · cases hr3 : r3 with
        | nil => rw [hr3] at hds; simp at hds
        | cons d ds' =>
          rw [hr3] at hds
          have hd : d.isDigit = true := by
            by_contra hdn
            rw [List.takeWhile_cons_of_neg (by simpa using hdn)] at hds
            simp at hds
          try dsimp only
          rw [List.cons_append] 
          try dsimp only
          rw [List.takeWhile_cons_of_pos hd]
          rw [if_neg (by simp)]
          exact ⟨_, rfl⟩

theorem findLinkedInMatch_extend : ∀ (a b m : List Char),
    findLinkedInMatch a = some m →
    ∃ m2, findLinkedInMatch (a ++ b) = some m2 := by
  intro a
  induction a with
  | nil => intro b m h; cases h
  | cons c a' ih =>
    intro b m h
    unfold findLinkedInMatch at h
    rw [List.cons_append]
    cases hat : matchLinkedInAt (c :: a') with
    | some m0 =>
      rcases matchLinkedInAt_extend (c :: a') b m0 hat with ⟨m2, hm2⟩
      rw [List.cons_append] at hm2
      refine ⟨m2, ?_⟩
      unfold findLinkedInMatch
      rw [hm2]
    | none =>
      rw [hat] at h
      rcases ih b m h with ⟨m2, hm2⟩
      unfold findLinkedInMatch
      cases hat2 : matchLinkedInAt (c :: (a' ++ b)) with
      | some m3 => exact ⟨m3, rfl⟩
      | none => exact ⟨m2, hm2⟩

theorem findLinkedInMatch_none_of_append (a b : List Char)
    (h : findLinkedInMatch (a ++ b) = none) :
    findLinkedInMatch a = none := by
  cases hfa : findLinkedInMatch a with
  | none => rfl
  | some m =>
    rcases findLinkedInMatch_extend a b m hfa with ⟨m2, hm2⟩
    rw [h] at hm2
    cases hm2

theorem dropWhile_head_false {α : Type} {p : α → Bool} :
    ∀ (l : List α) (x : α) (t : List α), l.dropWhile p = x :: t → p x = false := by
  intro l
  induction l with
  | nil => intro x t h; cases h
  | cons c cs ih =>
    intro x t h
    by_cases hc : p c
    · rw [List.dropWhile_cons_of_pos hc] at h
      exact ih x t h
    · rw [List.dropWhile_cons_of_neg hc] at h
      injection h with h1 _
      subst h1
      simpa using hc

theorem takeWhile_append_of_all {p : Char → Bool} (a b : List Char)
    (ha : ∀ c ∈ a, p c = true) :
    (a ++ b).takeWhile p = a ++ b.takeWhile p := by
  rw [List.takeWhile_append]
  rw [if_pos]
  rw [List.takeWhile_eq_self_iff.2 ha]

theorem dropWhile_append_of_all {p : Char → Bool} (a b : List Char)
    (ha : ∀ c ∈ a, p c = true) :
    (a ++ b).dropWhile p = b.dropWhile p := by
  rw [List.dropWhile_append]
  rw [if_pos]
  rw [List.dropWhile_eq_nil_iff.2 (fun c hc => ha c hc)]
  rfl

theorem normalize_of_linkedin_shape (m : List Char) (hs : LinkedInShape m) :
    normalizeLinkedInUrlL m = m := by
  have hmat := matchLinkedInAt_self m hs
  obtain ⟨w, ds, hw, hds, hdig, hm⟩ := hs
  have hcons : ∃ t, m = 'h' :: t := by
    rw [hm]
    exact ⟨_, rfl⟩
  obtain ⟨t, hmt⟩ := hcons
  have hne : m.isEmpty = false := by rw [hmt]; rfl
  have hslash : startsWithSlash m = false := by rw [hmt]; rfl
  have hfind : findLinkedInMatch m = some m := by
    rw [hmt]
    unfold findLinkedInMatch
    rw [← hmt, hmat]
  unfold normalizeLinkedInUrlL
  rw [if_neg (by simp [hne])]
  rw [if_neg (by simp [hslash])]
  simp only [hfind]

theorem findLinkedInMatch_extend_left : ∀ (pre l m : List Char),
    findLinkedInMatch l = some m →
    ∃ m2, findLinkedInMatch (pre ++ l) = some m2 := by
  intro pre
  induction pre with
  | nil => intro l m h; exact ⟨m, h⟩
  | cons c p2 ih =>
    intro l m h
    rcases ih l m h with ⟨m2, hm2⟩
    rw [List.cons_append]
    unfold findLinkedInMatch
    cases hat : matchLinkedInAt (c :: (p2 ++ l)) with
    | some m3 => exact ⟨m3, rfl⟩
    | none => exact ⟨m2, hm2⟩

/-- On any input the job-view regex already matches, the LinkedIn
normalizer is idempotent: the first pass returns the matched text, whose
shape the regex matches again in full. -/
theorem normalizeLinkedInUrlL_idem_of_match (l : List Char)
    (h : (findLinkedInMatch l).isSome = true) :
    normalizeLinkedInUrlL (normalizeLinkedInUrlL l)
      = normalizeLinkedInUrlL l := by
  rw [Option.isSome_iff_exists] at h
  obtain ⟨m, hm⟩ := h
  have hne : l.isEmpty = false := by
    cases l with
    | nil => cases hm
    | cons a t => rfl
  have hl2 : ∃ m2, findLinkedInMatch
      (if startsWithSlash l then "https://www.linkedin.com".toList ++ l
       else l) = some m2 := by
    by_cases hsw : startsWithSlash l = true
    · rw [if_pos hsw]
      exact findLinkedInMatch_extend_left _ l m hm
    · rw [if_neg hsw]
      exact ⟨m, hm⟩
  obtain ⟨m2, hm2⟩ := hl2
  have hfl : normalizeLinkedInUrlL l = m2 := by
    unfold normalizeLinkedInUrlL
    rw [if_neg (by simp [hne])]
    simp only [hm2]
  rw [hfl]
  exact normalize_of_linkedin_shape m2 (findLinkedInMatch_shape _ m2 hm2)

theorem formDecode_cons_plain (c : Char) (rest : List Char)
    (hp : c ≠ '+') (hpc : c ≠ '%') :
    formDecode (c :: rest) = c :: formDecode rest := by
  rw [formDecode.eq_def]
  split
  · next h => cases h
  · next h =>
    injection h with h1 _
    exact absurd h1 hp
  · next h1 h2 rest2 h =>
    injection h with hc _
    exact absurd hc hpc
  · next h =>
    injection h with hc _
    exact absurd hc hpc
  · next h =>
    injection h with hc hrest
    rw [hc, hrest]

theorem formDecode_id : ∀ l : List Char,
    (∀ c ∈ l, c ≠ '%' ∧ c ≠ '+') → formDecode l = l := by
  intro l
  induction l with
  | nil => intro _; rfl
  | cons c rest ih =>
    intro h
    have hc := h c (by simp)
    rw [formDecode_cons_plain c rest hc.2 hc.1]
    rw [ih (fun x hx => h x (List.mem_cons_of_mem _ hx))]

theorem splitAmp_pieces : ∀ (l : List Char) (p : List Char),
    p ∈ splitAmp l → ∀ c ∈ p, c ∈ l ∧ c ≠ '&' := by
  intro l
  induction l with
  | nil =>
    intro p hp c hc
    simp [splitAmp] at hp
    subst hp
    cases hc
  | cons x rest ih =>
    intro p hp c hc
    unfold splitAmp at hp
    by_cases hx : x = '&'
    · rw [if_pos hx] at hp
      rcases List.mem_cons.1 hp with heq | hp'
      · subst heq; cases hc
      · have := ih p hp' c hc
        exact ⟨List.mem_cons_of_mem _ this.1, this.2⟩
    · rw [if_neg hx] at hp
      cases hsp : splitAmp rest with
      | nil =>
        rw [hsp] at hp
        rcases List.mem_cons.1 hp with heq | hp'
        · subst heq
          rcases List.mem_cons.1 hc with heq | hc'
          · subst heq
            exact ⟨by simp, hx⟩
          · cases hc'
        · cases hp'
      | cons p0 ps =>
        rw [hsp] at hp
        rcases List.mem_cons.1 hp with heq | hp'
        · subst heq
          rcases List.mem_cons.1 hc with heq | hc'
          · subst heq
            exact ⟨by simp, hx⟩
          · have := ih p0 (by rw [hsp]; simp) c hc'
            exact ⟨List.mem_cons_of_mem _ this.1, this.2⟩
        · have := ih p (by rw [hsp]; exact List.mem_cons_of_mem _ hp') c hc
          exact ⟨List.mem_cons_of_mem _ this.1, this.2⟩

theorem splitAmp_no_amp : ∀ l : List Char,
    (∀ c ∈ l, c ≠ '&') → splitAmp l = [l] := by
  intro l
  induction l with
  | nil => intro _; rfl
  | cons x rest ih =>
    intro h
    unfold splitAmp
    rw [if_neg (h x (by simp))]
    rw [ih (fun c hc => h c (List.mem_cons_of_mem _ hc))]

theorem urlSearch_mem (l : List Char) (c : Char) (hc : c ∈ urlSearch l) :
    c ∈ l ∧ c ≠ '#' := by
  unfold urlSearch at hc
  have h1 : c ∈ (l.takeWhile (fun c => c ≠ '#')).dropWhile
      (fun c => c ≠ '?') := (List.tail_sublist _).subset hc
  have h2 : c ∈ l.takeWhile (fun c => c ≠ '#') :=
    (List.dropWhile_sublist _).subset h1
  refine ⟨(List.takeWhile_sublist _).subset h2, ?_⟩
  have := List.mem_takeWhile_imp h2
  simpa using this

theorem searchParamGet_clean (q nm v : List Char)
    (hq : ∀ c ∈ q, c ≠ '%' ∧ c ≠ '+')
    (h : searchParamGet q nm = some v) :
    ∀ c ∈ v, c ∈ q ∧ c ≠ '&' := by
  unfold searchParamGet at h
  cases hf : ((splitAmp q).filter (fun p => !p.isEmpty)).find?
      (fun p => formDecode (p.takeWhile (fun c => c ≠ '=')) == nm) with
  | none => rw [hf] at h; cases h
  | some p =>
    rw [hf] at h
    injection h with h
    have hpmem : p ∈ splitAmp q :=
      List.mem_of_mem_filter (List.mem_of_find?_eq_some hf)
    have hval : ∀ c ∈ (p.dropWhile (fun c => c ≠ '=')).tail, c ∈ q ∧ c ≠ '&' := by
      intro c hc
      have : c ∈ p :=
        (List.dropWhile_sublist _).subset ((List.tail_sublist _).subset hc)
      exact splitAmp_pieces q p hpmem c this
    have hdec : formDecode ((p.dropWhile (fun c => c ≠ '=')).tail)
        = (p.dropWhile (fun c => c ≠ '=')).tail :=
      formDecode_id _ (fun c hc => hq c (hval c hc).1)
    rw [hdec] at h
    subst h
    exact hval

theorem stripTabsNewlines_of_clean (l : List Char)
    (h : ∀ c ∈ l, c ≠ '\t' ∧ c ≠ '\n' ∧ c ≠ '\r') :
    stripTabsNewlines l = l := by
  unfold stripTabsNewlines
  apply List.filter_eq_self.2
  intro c hc
  simp [(h c hc).1, (h c hc).2.1, (h c hc).2.2]

theorem mem_stripTabsNewlines (l : List Char) (c : Char)
    (hc : c ∈ stripTabsNewlines l) :
    c ∈ l ∧ c ≠ '\t' ∧ c ≠ '\n' ∧ c ≠ '\r' := by
  unfold stripTabsNewlines at hc
  have h1 := List.mem_of_mem_filter hc
  have h2 := List.of_mem_filter hc
  simp at h2
  exact ⟨h1, h2.1.1, h2.1.2, h2.2⟩

/-- The canonical Indeed URL parses: a special `https` URL with host
`uk.indeed.com` (the job id only ever reaches the query part, where the
parser leaves it alone up to tab/newline stripping and the special
schemes' backslash conversion). -/
theorem urlParse?_canonical (jk : List Char) :
    urlParse? (indeedCanonical jk)
      = some (.special "https".toList "uk.indeed.com".toList
          ('/' :: ("viewjob?jk=".toList
            ++ backslashFix (stripTabsNewlines jk)))) := rfl

theorem urlSearch_canonical (jk : List Char) (hjk : ∀ c ∈ jk, c ≠ '#') :
    urlSearch (indeedCanonical jk) = "jk=".toList ++ jk := by
  unfold urlSearch
  have hlit : ∀ c ∈ "https://uk.indeed.com/viewjob?jk=".toList, c ≠ '#' := by
    decide
  have htw : (indeedCanonical jk).takeWhile (fun c => c ≠ '#')
      = indeedCanonical jk := by
    apply List.takeWhile_eq_self_iff.2
    intro c hc
    unfold indeedCanonical at hc
    rcases List.mem_append.1 hc with h | h
    · simpa using hlit c h
    · simpa using hjk c h
  rw [htw]
  have h0 : indeedCanonical jk
      = "https://uk.indeed.com/viewjob".toList
        ++ ('?' :: ("jk=".toList ++ jk)) := rfl
  rw [h0, dropWhile_append_of_all _ _ (by decide)]
  rw [List.dropWhile_cons_of_neg (by simp)]
  rfl

theorem searchParamGet_canonical (jk : List Char) (hne : jk ≠ [])
    (hjk : ∀ c ∈ jk, c ≠ '%' ∧ c ≠ '+' ∧ c ≠ '&') :
    searchParamGet ("jk=".toList ++ jk) "jk".toList = some jk := by
  unfold searchParamGet
  have hq : "jk=".toList ++ jk = 'j' :: 'k' :: '=' :: jk := rfl
  have hsp : splitAmp ("jk=".toList ++ jk) = ["jk=".toList ++ jk] := by
    apply splitAmp_no_amp
    intro c hc
    rcases List.mem_append.1 hc with h | h
    · simpa using (by decide : ∀ c ∈ "jk=".toList, c ≠ '&') c h
    · exact (hjk c h).2.2
  rw [hsp, hq]
  rw [List.filter_cons_of_pos (by rfl)]
  rw [List.find?_cons_of_pos _ (by rfl)]
  show some (formDecode jk) = some jk
  rw [formDecode_id jk (fun c hc => ⟨(hjk c hc).1, (hjk c hc).2.1⟩)]

theorem indeedCanonical_roundtrip (jk j : List Char) (hne : jk ≠ [])
    (hjk : ∀ c ∈ jk, c ≠ '%' ∧ c ≠ '+' ∧ c ≠ '&' ∧ c ≠ '#'
      ∧ c ≠ '\t' ∧ c ≠ '\n' ∧ c ≠ '\r') :
    normalizeIndeedUrlL (indeedCanonical jk) j = indeedCanonical jk := by
  unfold normalizeIndeedUrlL
  rw [show (indeedCanonical jk).isEmpty = false from rfl]
  rw [show startsWithSlash (indeedCanonical jk) = false from rfl]
  simp only [Bool.false_eq_true, if_false]
  rw [urlParse?_canonical jk]
  have hstripc : stripTabsNewlines (indeedCanonical jk)
      = indeedCanonical jk := by
    apply stripTabsNewlines_of_clean
    intro c hc
    unfold indeedCanonical at hc
    rcases List.mem_append.1 hc with h | h
    · exact (by decide : ∀ c ∈ "https://uk.indeed.com/viewjob?jk=".toList,
        c ≠ '\t' ∧ c ≠ '\n' ∧ c ≠ '\r') c h
    · exact ⟨(hjk c h).2.2.2.2.1, (hjk c h).2.2.2.2.2.1,
        (hjk c h).2.2.2.2.2.2⟩
  rw [hstripc]
  rw [urlSearch_canonical jk (fun c hc => (hjk c hc).2.2.2.1)]
  rw [searchParamGet_canonical jk hne
    (fun c hc => ⟨(hjk c hc).1, (hjk c hc).2.1, (hjk c hc).2.2.1⟩)]
  have hjke : jk.isEmpty = false := by
    cases jk with
    | nil => exact absurd rfl hne
    | cons a t => rfl
  simp only [hjke, Bool.false_eq_true, if_false]

theorem normalizeIndeedUrlL_pos (u j : List Char) (h1 : u.isEmpty = false)
    (h2 : startsWithSlash u = false) :
    normalizeIndeedUrlL u j =
      match urlParse? u with
      | none => u
      | some _ =>
        match searchParamGet (urlSearch (stripTabsNewlines u))
            "jk".toList with
        | some v =>
          if v.isEmpty then (if j.isEmpty then u else indeedCanonical j)
          else indeedCanonical v
        | none => if j.isEmpty then u else indeedCanonical j := by
  unfold normalizeIndeedUrlL
  rw [h1, h2]
  simp only [Bool.false_eq_true, if_false]
  cases urlParse? u with
  | none => rfl
  | some p =>
    cases hs : searchParamGet (urlSearch (stripTabsNewlines u))
        "jk".toList with
    | none => rfl
    | some v =>
      by_cases hv : v.isEmpty = true
      · simp [hv]
      · simp [eq_false_of_ne_true hv]

theorem normalizeIndeedUrlL_idem (u j : List Char)
    (hu : ∀ c ∈ u, c ≠ '%' ∧ c ≠ '+')
    (hj : ∀ c ∈ j, c ≠ '%' ∧ c ≠ '+' ∧ c ≠ '&' ∧ c ≠ '#'
      ∧ c ≠ '\t' ∧ c ≠ '\n' ∧ c ≠ '\r') :
    normalizeIndeedUrlL (normalizeIndeedUrlL u j) j
      = normalizeIndeedUrlL u j := by
  by_cases hemp : u.isEmpty = true
  · have hv : normalizeIndeedUrlL u j
        = if j.isEmpty = true then [] else indeedCanonical j := by
      unfold normalizeIndeedUrlL
      rw [if_pos hemp]
    rw [hv]
    by_cases hje : j.isEmpty = true
    · rw [if_pos hje]
      unfold normalizeIndeedUrlL
      rw [if_pos (show ([] : List Char).isEmpty = true from rfl), if_pos hje]
    · rw [if_neg hje]
      exact indeedCanonical_roundtrip j j
        (fun he => hje (by rw [he]; rfl)) hj
  · obtain ⟨u2, hu2def, hu2e, hu2s, hu2clean⟩ :
        ∃ u2, (if startsWithSlash u = true
            then "https://uk.indeed.com".toList ++ u else u) = u2
          ∧ u2.isEmpty = false ∧ startsWithSlash u2 = false
          ∧ (∀ c ∈ u2, c ≠ '%' ∧ c ≠ '+') := by
      by_cases hsw : startsWithSlash u = true
      · refine ⟨"https://uk.indeed.com".toList ++ u,
          by rw [if_pos hsw], rfl, rfl, ?_⟩
        intro c hc
        rcases List.mem_append.1 hc with h | h
        · simpa using
            (by decide : ∀ c ∈ "https://uk.indeed.com".toList,
              c ≠ '%' ∧ c ≠ '+') c h
        · exact hu c h
      · exact ⟨u, by rw [if_neg hsw], eq_false_of_ne_true hemp,
          eq_false_of_ne_true hsw, hu⟩
    have houter : normalizeIndeedUrlL u j =
        match urlParse? u2 with
        | none => u2
        | some _ =>
          match searchParamGet (urlSearch (stripTabsNewlines u2))
              "jk".toList with
          | some v =>
            if v.isEmpty = true
            then (if j.isEmpty = true then u2 else indeedCanonical j)
            else indeedCanonical v
          | none => if j.isEmpty = true then u2 else indeedCanonical j := by
      unfold normalizeIndeedUrlL
      rw [eq_false_of_ne_true hemp]
      simp only [Bool.false_eq_true, if_false]
      rw [hu2def]
      cases urlParse? u2 with
      | none => rfl
      | some p =>
        cases searchParamGet (urlSearch (stripTabsNewlines u2))
            "jk".toList with
        | none => rfl
        | some v =>
          by_cases hve : v.isEmpty = true
          · simp [hve]
          · simp [eq_false_of_ne_true hve]
    cases hp : urlParse? u2 with
    | none =>
      have hval : normalizeIndeedUrlL u j = u2 := by rw [houter, hp]
      rw [hval]
      rw [normalizeIndeedUrlL_pos u2 j hu2e hu2s, hp]
    | some p =>
      cases hsg : searchParamGet (urlSearch (stripTabsNewlines u2))
          "jk".toList with
      | none =>
        have hval : normalizeIndeedUrlL u j
            = if j.isEmpty = true then u2 else indeedCanonical j := by
          rw [houter, hp, hsg]
        rw [hval]
        by_cases hje : j.isEmpty = true
        · rw [if_pos hje]
          rw [normalizeIndeedUrlL_pos u2 j hu2e hu2s, hp, hsg, if_pos hje]
        · rw [if_neg hje]
          exact indeedCanonical_roundtrip j j
            (fun he => hje (by rw [he]; rfl)) hj
      | some v =>
        have hqm : ∀ c ∈ urlSearch (stripTabsNewlines u2),
            c ∈ stripTabsNewlines u2 ∧ c ≠ '#' :=
          fun c hc => urlSearch_mem _ c hc
        have hmem2 : ∀ c ∈ urlSearch (stripTabsNewlines u2),
            c ∈ u2 ∧ c ≠ '\t' ∧ c ≠ '\n' ∧ c ≠ '\r' :=
          fun c hc => mem_stripTabsNewlines u2 c (hqm c hc).1
        have hqc : ∀ c ∈ urlSearch (stripTabsNewlines u2),
            c ≠ '%' ∧ c ≠ '+' :=
          fun c hc => hu2clean c (hmem2 c hc).1
        have hvq := searchParamGet_clean (urlSearch (stripTabsNewlines u2))
          _ v hqc hsg
        have hvclean : ∀ c ∈ v, c ≠ '%' ∧ c ≠ '+' ∧ c ≠ '&' ∧ c ≠ '#'
            ∧ c ≠ '\t' ∧ c ≠ '\n' ∧ c ≠ '\r' :=
          fun c hc => ⟨(hqc c (hvq c hc).1).1, (hqc c (hvq c hc).1).2,
            (hvq c hc).2, (hqm c (hvq c hc).1).2,
            (hmem2 c (hvq c hc).1).2.1, (hmem2 c (hvq c hc).1).2.2.1,
            (hmem2 c (hvq c hc).1).2.2.2⟩
        have hval : normalizeIndeedUrlL u j
            = if v.isEmpty = true
              then (if j.isEmpty = true then u2 else indeedCanonical j)
              else indeedCanonical v := by
          rw [houter, hp, hsg]
        rw [hval]
        by_cases hve : v.isEmpty = true
        · rw [if_pos hve]
          by_cases hje : j.isEmpty = true
          · rw [if_pos hje]
            rw [normalizeIndeedUrlL_pos u2 j hu2e hu2s, hp, hsg]
            show (if v.isEmpty = true
              then (if j.isEmpty = true then u2 else indeedCanonical j)
              else indeedCanonical v) = u2
            rw [if_pos hve, if_pos hje]
          · rw [if_neg hje]
            exact indeedCanonical_roundtrip j j
              (fun he => hje (by rw [he]; rfl)) hj
        · rw [if_neg hve]
          exact indeedCanonical_roundtrip v j
            (fun he => hve (by rw [he]; rfl)) hvclean

theorem normalizeOttaUrlL_idem (l : List Char) :
    normalizeOttaUrlL (normalizeOttaUrlL l) = normalizeOttaUrlL l := by
  by_cases h1 : l.isEmpty = true
  · have hv : normalizeOttaUrlL l = [] := by
      unfold normalizeOttaUrlL; rw [if_pos h1]
    rw [hv]
    rfl
  · by_cases h2 : startsWithSlash l = true
    · have hv : normalizeOttaUrlL l = "https://otta.com".toList ++ l := by
        unfold normalizeOttaUrlL
        rw [if_neg h1, if_pos h2]
      rw [hv]
      have he : ("https://otta.com".toList ++ l).isEmpty = false := rfl
      have hss : startsWithSlash ("https://otta.com".toList ++ l) = false := rfl
      unfold normalizeOttaUrlL
      rw [he, hss]
      simp
    · have hv : normalizeOttaUrlL l = l := by
        unfold normalizeOttaUrlL; rw [if_neg h1, if_neg h2]
      rw [hv]
      exact hv

/-- C9 counterexample: neither the LinkedIn nor the Indeed URL
normalizer is idempotent.  LinkedIn: the job-view regex is
case-sensitive but `new URL` lowercases the host, so
`https://LINKEDIN.com/jobs/view/123abc` first becomes
`https://linkedin.com/jobs/view/123abc` (origin + pathname) and on a
second pass the regex newly matches and returns
`https://linkedin.com/jobs/view/123`.  Indeed: the first pass decodes
the `jk` parameter of `https://uk.indeed.com/viewjob?jk=%2B` to `+` and
splices it back without re-encoding, and the second pass decodes that
`+` to a space. -/
theorem url_normalizers_not_idempotent :
    (normalizeLinkedInUrl "https://LINKEDIN.com/jobs/view/123abc"
      = "https://linkedin.com/jobs/view/123abc"
    ∧ normalizeLinkedInUrl (normalizeLinkedInUrl
        "https://LINKEDIN.com/jobs/view/123abc")
      = "https://linkedin.com/jobs/view/123"
    ∧ normalizeLinkedInUrl (normalizeLinkedInUrl
        "https://LINKEDIN.com/jobs/view/123abc")
      ≠ normalizeLinkedInUrl "https://LINKEDIN.com/jobs/view/123abc")
    ∧ (normalizeIndeedUrl "https://uk.indeed.com/viewjob?jk=%2B" ""
      = "https://uk.indeed.com/viewjob?jk=+"
    ∧ normalizeIndeedUrl (normalizeIndeedUrl
        "https://uk.indeed.com/viewjob?jk=%2B" "") ""
      ≠ normalizeIndeedUrl "https://uk.indeed.com/viewjob?jk=%2B" "") := by
  refine ⟨⟨by decide, by decide, by decide⟩, by decide, by decide⟩

/-- C9 (amended): the Otta URL normalization is idempotent on every
input.  The LinkedIn and Indeed normalizers are not idempotent in
general (see the counterexample); they are idempotent on restricted
inputs: LinkedIn on every URL its job-view regex already matches
(where `new URL` normalization is never consulted), and Indeed on URLs
free of percent-escapes and plus signs with a fallback job id free of
percent, plus, ampersand, hash, tab and newline (otherwise the decoded
`jk` value spliced back without re-encoding, or the next pass's
tab/newline stripping, changes the result). -/
theorem url_normalizers_idempotent (u uo ui j : String)
    (hu : (findLinkedInMatch u.toList).isSome = true)
    (hui : noPctPlus ui = true) (hj : cleanJobId j = true) :
    (normalizeLinkedInUrl (normalizeLinkedInUrl u) = normalizeLinkedInUrl u)
    ∧ (normalizeOttaUrl (normalizeOttaUrl uo) = normalizeOttaUrl uo)
    ∧ (normalizeIndeedUrl (normalizeIndeedUrl ui j) j
        = normalizeIndeedUrl ui j) := by
  unfold noPctPlus at hui
  unfold cleanJobId at hj
  have h1 : ∀ c ∈ ui.toList, c ≠ '%' ∧ c ≠ '+' := by
    intro c hc
    have := List.all_eq_true.1 hui c hc
    simpa using this
  have h2 : ∀ c ∈ j.toList, c ≠ '%' ∧ c ≠ '+' ∧ c ≠ '&' ∧ c ≠ '#'
      ∧ c ≠ '\t' ∧ c ≠ '\n' ∧ c ≠ '\r' := by
    intro c hc
    have := List.all_eq_true.1 hj c hc
    simp only [Bool.and_eq_true, decide_eq_true_eq, ne_eq, and_assoc] at this
    simpa using this
  refine ⟨?_, ?_, ?_⟩
  · exact congrArg String.mk (normalizeLinkedInUrlL_idem_of_match u.toList hu)
  · exact congrArg String.mk (normalizeOttaUrlL_idem uo.toList)
  · exact congrArg String.mk
      (normalizeIndeedUrlL_idem ui.toList j.toList h1 h2)

/-- Witness for the amended C9 theorem at concrete inputs. -/
theorem url_normalizers_idempotent_witness :
    (findLinkedInMatch
        "https://www.linkedin.com/jobs/view/12345?refId=x".toList).isSome
      = true
    ∧ noPctPlus "https://uk.indeed.com/viewjob?jk=abc123" = true
    ∧ cleanJobId "abc123" = true
    ∧ ((normalizeLinkedInUrl (normalizeLinkedInUrl
          "https://www.linkedin.com/jobs/view/12345?refId=x")
        = normalizeLinkedInUrl
            "https://www.linkedin.com/jobs/view/12345?refId=x")
      ∧ (normalizeOttaUrl (normalizeOttaUrl "/jobs/view/12345?refId=x")
        = normalizeOttaUrl "/jobs/view/12345?refId=x")
      ∧ (normalizeIndeedUrl (normalizeIndeedUrl
            "https://uk.indeed.com/viewjob?jk=abc123" "abc123") "abc123"
        = normalizeIndeedUrl
            "https://uk.indeed.com/viewjob?jk=abc123" "abc123")) :=
  ⟨by decide, by decide, by decide,
    url_normalizers_idempotent
      "https://www.linkedin.com/jobs/view/12345?refId=x"
      "/jobs/view/12345?refId=x"
      "https://uk.indeed.com/viewjob?jk=abc123" "abc123"
      (by decide) (by decide) (by decide)⟩

end JobRadar
